import Mathlib

/-!
Verification of the tab-bar cache core of asamuzaK/treestyletab
(src/webextensions/sidebar/sidebar-cache.js and
src/webextensions/background/index.js).

JavaScript strings are embedded as lists of characters (`JStr`).  The
browser session store is embedded as an association list from tab ids to
per-key slots.  Stateful functions are embedded as explicit state-passing
functions that additionally emit a trace of externally visible events;
operations that can raise a TypeError return `Except`.
-/

set_option maxHeartbeats 1000000

abbrev JStr := List Char

/-- Characters treated as whitespace by the JavaScript `trim` builtin
(the common set: space, tab, LF, VT, FF, CR). -/
def isJsWhitespace (c : Char) : Bool :=
  c = ' ' || c = '\x09' || c = '\x0a' || c = '\x0b' || c = '\x0c' || c = '\x0d'

/-- Embedding of the JavaScript builtin `String.prototype.trim`. -/
def jsTrim (s : JStr) : JStr :=
  ((s.dropWhile isJsWhitespace).reverse.dropWhile isJsWhitespace).reverse

/-- Extends the first split segment with a leading character. -/
def consHeadSplit (c : Char) : List JStr → List JStr
  | [] => [[c]]
  | l :: ls => (c :: l) :: ls

/-- Embedding of the JavaScript builtin `split` applied to the one-character
separator LF, as in the source's `.split('\n')`. -/
def splitOnNewline : JStr → List JStr
  | [] => [[]]
  | c :: rest =>
    if c = '\x0a' then [] :: splitOnNewline rest
    else consHeadSplit c (splitOnNewline rest)

/-- Embedding of the JavaScript builtin `String.prototype.replace` with a
string pattern: only the first occurrence is replaced; an empty pattern
matches at position 0; when the pattern does not occur the string is
returned unchanged. -/
def jsReplaceFirst : JStr → JStr → JStr → JStr
  | [], pat, rep => if pat.isPrefixOf [] then rep else []
  | c :: rest, pat, rep =>
    if pat.isPrefixOf (c :: rest) then rep ++ (c :: rest).drop pat.length
    else c :: jsReplaceFirst rest pat rep

/-- Embedding of the JavaScript builtin `Array.prototype.join`: the pieces
interleaved with the separator. -/
def joinSep (sep : JStr) : List JStr → JStr
  | [] => []
  | [x] => x
  | x :: y :: rest => x ++ sep ++ joinSep sep (y :: rest)

/-- The per-tab identity record whose fields enter the signatures
(src/webextensions/background/index.js, getTabsSignatureSource). -/
structure TabIdentity where
  audible : Bool
  incognito : Bool
  pinned : Bool
  title : JStr
  url : JStr
deriving DecidableEq

/-- A browser tab as seen through the WebExtensions API: its id plus the
identity fields that matter to the signatures. -/
structure ApiTab where
  id : Nat
  identity : TabIdentity
deriving DecidableEq

/-- Lower-case hexadecimal digit characters, as produced by the JavaScript
builtin `JSON.stringify` for control-character escapes. -/
def hexDigitChar (n : Nat) : Char :=
  match n with
  | 0 => '0' | 1 => '1' | 2 => '2' | 3 => '3' | 4 => '4' | 5 => '5'
  | 6 => '6' | 7 => '7' | 8 => '8' | 9 => '9' | 10 => 'a' | 11 => 'b'
  | 12 => 'c' | 13 => 'd' | 14 => 'e' | _ => 'f'

/-- The string-character escaping performed by the JavaScript builtin
`JSON.stringify`: quote, backslash and the named control characters get
two-character escapes, the remaining control characters get a
unicode escape, everything else is emitted verbatim. -/
def escChar (c : Char) : JStr :=
  if c = '"' then ['\\', '"']
  else if c = '\\' then ['\\', '\\']
  else if c = '\x08' then ['\\', 'b']
  else if c = '\x09' then ['\\', 't']
  else if c = '\x0a' then ['\\', 'n']
  else if c = '\x0c' then ['\\', 'f']
  else if c = '\x0d' then ['\\', 'r']
  else if c.toNat < 32 then
    ['\\', 'u', '0', '0', hexDigitChar (c.toNat / 16), hexDigitChar (c.toNat % 16)]
  else [c]

/-- JSON escaping of a whole string body (without the surrounding quotes). -/
def escStr : JStr → JStr
  | [] => []
  | c :: rest => escChar c ++ escStr rest

/-- JSON rendering of a boolean. -/
def jsonBool (b : Bool) : JStr :=
  if b then ['t', 'r', 'u', 'e'] else ['f', 'a', 'l', 's', 'e']

/-- Literal piece of the JSON record: opening brace and first key. -/
def litAudible : JStr := ['\x7b', '"', 'a', 'u', 'd', 'i', 'b', 'l', 'e', '"', ':']

/-- Literal piece of the JSON record: second key. -/
def litIncognito : JStr := [',', '"', 'i', 'n', 'c', 'o', 'g', 'n', 'i', 't', 'o', '"', ':']

/-- Literal piece of the JSON record: third key. -/
def litPinned : JStr := [',', '"', 'p', 'i', 'n', 'n', 'e', 'd', '"', ':']

/-- Literal piece of the JSON record: fourth key and its opening quote. -/
def litTitle : JStr := [',', '"', 't', 'i', 't', 'l', 'e', '"', ':', '"']

/-- Literal piece of the JSON record between the title's closing quote and
the url value's opening quote. -/
def litUrlTail : JStr := [',', '"', 'u', 'r', 'l', '"', ':', '"']

/-- JSON rendering of one identity record, exactly as the JavaScript builtin
`JSON.stringify` renders the object built by `getTabsSignatureSource`
(insertion order of the keys: audible, incognito, pinned, title, url). -/
def jsonTabIdentity (t : TabIdentity) : JStr :=
  litAudible ++ jsonBool t.audible ++ litIncognito ++ jsonBool t.incognito ++
  litPinned ++ jsonBool t.pinned ++ litTitle ++ escStr t.title ++
  ('"' :: litUrlTail) ++ escStr t.url ++ ['"', '\x7d']

/-- JSON rendering of a list of identity records, as `JSON.stringify` renders
an array of objects. -/
def jsonTabList (l : List TabIdentity) : JStr :=
  '[' :: (joinSep [','] (l.map jsonTabIdentity) ++ [']'])

/-- Decoding helpers used only to establish that the JSON rendering is
injective.  `dropLit` consumes an expected literal. -/
def dropLit : JStr → JStr → Option JStr
  | [], s => some s
  | _ :: _, [] => none
  | c :: l, d :: s => if d = c then dropLit l s else none

/-- Decodes a JSON boolean. -/
def readBool : JStr → Option (Bool × JStr)
  | 't' :: 'r' :: 'u' :: 'e' :: rest => some (true, rest)
  | 'f' :: 'a' :: 'l' :: 's' :: 'e' :: rest => some (false, rest)
  | _ => none

/-- Prepends a character to the decoded part of an optional result. -/
def consHead (c : Char) : Option (JStr × JStr) → Option (JStr × JStr) :=
  Option.map (fun p => (c :: p.1, p.2))

/-- Numeric value of a lower-case hexadecimal digit character. -/
def hexVal (c : Char) : Nat :=
  if c = '0' then 0 else if c = '1' then 1 else if c = '2' then 2
  else if c = '3' then 3 else if c = '4' then 4 else if c = '5' then 5
  else if c = '6' then 6 else if c = '7' then 7 else if c = '8' then 8
  else if c = '9' then 9 else if c = 'a' then 10 else if c = 'b' then 11
  else if c = 'c' then 12 else if c = 'd' then 13 else if c = 'e' then 14
  else 15

/-- Decodes a JSON string body up to and including its closing quote,
returning the decoded body and the remaining input.  The first argument is
recursion fuel, bounding the number of decoded characters. -/
def unescape : Nat → JStr → Option (JStr × JStr)
  | 0, _ => none
  | _ + 1, [] => none
  | fuel + 1, c :: rest =>
    if c = '"' then some ([], rest)
    else if c = '\\' then
      match rest with
      | [] => none
      | e :: rest2 =>
        if e = '"' then consHead '"' (unescape fuel rest2)
        else if e = '\\' then consHead '\\' (unescape fuel rest2)
        else if e = 'b' then consHead '\x08' (unescape fuel rest2)
        else if e = 't' then consHead '\x09' (unescape fuel rest2)
        else if e = 'n' then consHead '\x0a' (unescape fuel rest2)
        else if e = 'f' then consHead '\x0c' (unescape fuel rest2)
        else if e = 'r' then consHead '\x0d' (unescape fuel rest2)
        else if e = 'u' then
          match rest2 with
          | h1 :: h2 :: h3 :: h4 :: rest3 =>
            consHead
              (Char.ofNat (((hexVal h1 * 16 + hexVal h2) * 16 + hexVal h3) * 16 + hexVal h4))
              (unescape fuel rest3)
          | _ => none
        else none
    else consHead c (unescape fuel rest)

/-- Decodes one JSON identity record, with recursion fuel for the two
string bodies. -/
def decodeRec (fuel : Nat) (s : JStr) : Option (TabIdentity × JStr) := do
  let s1 ← dropLit litAudible s
  let (a, s2) ← readBool s1
  let s3 ← dropLit litIncognito s2
  let (i, s4) ← readBool s3
  let s5 ← dropLit litPinned s4
  let (p, s6) ← readBool s5
  let s7 ← dropLit litTitle s6
  let (ti, s8) ← unescape fuel s7
  let s9 ← dropLit litUrlTail s8
  let (u, s10) ← unescape fuel s9
  let s11 ← dropLit ['\x7d'] s10
  some (⟨a, i, p, ti, u⟩, s11)

theorem dropLit_self_append (l s : JStr) : dropLit l (l ++ s) = some s := by
  induction l with
  | nil => rfl
  | cons c rest ih => simp [dropLit, ih]

theorem readBool_append (b : Bool) (s : JStr) :
    readBool (jsonBool b ++ s) = some (b, s) := by
  cases b <;> rfl

theorem hexVal_hexDigitChar : ∀ n, n < 16 → hexVal (hexDigitChar n) = n := by decide

theorem unescape_escStr (s : JStr) :
    ∀ fuel t, s.length + 1 ≤ fuel → unescape fuel (escStr s ++ ('"' :: t)) = some (s, t) := by
  induction s with
  | nil =>
    intro fuel t hf
    match fuel, hf with
    | f + 1, _ => simp [escStr, unescape]
  | cons c rest ih =>
    intro fuel t hf
    match fuel, hf with
    | f + 1, hf =>
      have hrest : rest.length + 1 ≤ f := by
        simp only [List.length_cons] at hf; omega
      show unescape (f + 1) ((escChar c ++ escStr rest) ++ ('"' :: t)) = _
      rw [List.append_assoc]
      unfold escChar
      by_cases h1 : c = '"'
      · subst h1; simp [unescape, consHead, ih f _ hrest]
      · by_cases h2 : c = '\\'
        · subst h2; simp [unescape, consHead, ih f _ hrest]
        · by_cases h3 : c = '\x08'
          · subst h3; simp [unescape, consHead, ih f _ hrest]
          · by_cases h4 : c = '\x09'
            · subst h4; simp [unescape, consHead, ih f _ hrest]
            · by_cases h5 : c = '\x0a'
              · subst h5; simp [unescape, consHead, ih f _ hrest]
              · by_cases h6 : c = '\x0c'
                · subst h6; simp [unescape, consHead, ih f _ hrest]
                · by_cases h7 : c = '\x0d'
                  · subst h7; simp [unescape, consHead, ih f _ hrest]
                  · by_cases h8 : c.toNat < 32
                    · have hdiv : c.toNat / 16 < 16 := by omega
                      have hmod : c.toNat % 16 < 16 := Nat.mod_lt _ (by omega)
                      simp only [if_neg h1, if_neg h2, if_neg h3, if_neg h4, if_neg h5,
                        if_neg h6, if_neg h7, if_pos h8]
                      simp only [List.cons_append, List.nil_append]
                      rw [show ∀ r, unescape (f + 1) ('\\' :: 'u' :: '0' :: '0' ::
                          hexDigitChar (c.toNat / 16) :: hexDigitChar (c.toNat % 16) :: r) =
                          consHead (Char.ofNat (((hexVal '0' * 16 + hexVal '0') * 16 +
                            hexVal (hexDigitChar (c.toNat / 16))) * 16 +
                            hexVal (hexDigitChar (c.toNat % 16)))) (unescape f r)
                        from fun r => by simp [unescape]]
                      have hv0 : hexVal '0' = 0 := rfl
                      rw [hv0, hexVal_hexDigitChar _ hdiv, hexVal_hexDigitChar _ hmod]
                      have hc : ((0 * 16 + 0) * 16 + c.toNat / 16) * 16 + c.toNat % 16
                          = c.toNat := by omega
                      rw [hc, Char.ofNat_toNat, ih f _ hrest]
                      rfl
                    · simp only [if_neg h1, if_neg h2, if_neg h3, if_neg h4, if_neg h5,
                        if_neg h6, if_neg h7, if_neg h8]
                      simp only [List.cons_append, List.nil_append]
                      rw [show unescape (f + 1) (c :: (escStr rest ++ '"' :: t)) =
                          consHead c (unescape f (escStr rest ++ '"' :: t))
                        from by simp [unescape, h1, h2]]
                      rw [ih f _ hrest]
                      rfl

theorem dropLit_single (c : Char) (t : JStr) : dropLit [c] (c :: t) = some t := by
  simp [dropLit]

theorem decodeRec_append (r : TabIdentity) (t : JStr) (fuel : Nat)
    (hti : r.title.length + 1 ≤ fuel) (hu : r.url.length + 1 ≤ fuel) :
    decodeRec fuel (jsonTabIdentity r ++ t) = some (r, t) := by
  cases r with
  | mk a i p ti u =>
    simp only [jsonTabIdentity, List.append_assoc, List.cons_append, List.nil_append]
    simp [decodeRec, dropLit_self_append, readBool_append,
      unescape_escStr _ _ _ hti, unescape_escStr _ _ _ hu,
      dropLit_single, bind, Option.bind]

/-- Two renderings of records agree, with arbitrary suffixes, only when the
records and the suffixes agree: the record rendering is prefix-determined. -/
theorem jsonTabIdentity_cancel {r₁ r₂ : TabIdentity} {s₁ s₂ : JStr}
    (h : jsonTabIdentity r₁ ++ s₁ = jsonTabIdentity r₂ ++ s₂) :
    r₁ = r₂ ∧ s₁ = s₂ := by
  have h2 := congrArg
    (decodeRec (r₁.title.length + r₁.url.length + r₂.title.length + r₂.url.length + 1)) h
  rw [decodeRec_append _ _ _ (by omega) (by omega),
    decodeRec_append _ _ _ (by omega) (by omega)] at h2
  cases h2
  exact ⟨rfl, rfl⟩

theorem jsonTabIdentity_head (r : TabIdentity) :
    ∃ rest, jsonTabIdentity r = '\x7b' :: rest := by
  refine ⟨['"', 'a', 'u', 'd', 'i', 'b', 'l', 'e', '"', ':'] ++ jsonBool r.audible ++
    litIncognito ++ jsonBool r.incognito ++ litPinned ++ jsonBool r.pinned ++
    litTitle ++ escStr r.title ++ ('"' :: litUrlTail) ++ escStr r.url ++ ['"', '\x7d'], ?_⟩
  simp [jsonTabIdentity, litAudible, List.append_assoc]

theorem jsonTabIdentity_ne_nil (r : TabIdentity) : jsonTabIdentity r ≠ [] := by
  obtain ⟨rest, h⟩ := jsonTabIdentity_head r
  simp [h]

theorem joinSep_comma_map_inj :
    ∀ l₁ l₂ : List TabIdentity,
      joinSep [','] (l₁.map jsonTabIdentity) = joinSep [','] (l₂.map jsonTabIdentity) →
      l₁ = l₂ := by
  intro l₁
  induction l₁ with
  | nil =>
    intro l₂ h
    cases l₂ with
    | nil => rfl
    | cons r₂ rest₂ =>
      exfalso
      cases rest₂ with
      | nil =>
        simp only [List.map_nil, List.map_cons, joinSep] at h
        exact jsonTabIdentity_ne_nil r₂ h.symm
      | cons r₂' rest₂' =>
        simp only [List.map_nil, List.map_cons, joinSep] at h
        obtain ⟨rest, hr⟩ := jsonTabIdentity_head r₂
        rw [hr] at h
        simp at h
  | cons r₁ rest₁ ih =>
    intro l₂ h
    cases l₂ with
    | nil =>
      exfalso
      cases rest₁ with
      | nil =>
        simp only [List.map_nil, List.map_cons, joinSep] at h
        exact jsonTabIdentity_ne_nil r₁ h
      | cons r₁' rest₁' =>
        simp only [List.map_nil, List.map_cons, joinSep] at h
        obtain ⟨rest, hr⟩ := jsonTabIdentity_head r₁
        simp [hr] at h
    | cons r₂ rest₂ =>
      cases rest₁ with
      | nil =>
        cases rest₂ with
        | nil =>
          simp only [List.map_cons, List.map_nil, joinSep] at h
          have h2 : jsonTabIdentity r₁ ++ [] = jsonTabIdentity r₂ ++ [] := by
            simpa using h
          obtain ⟨he, -⟩ := jsonTabIdentity_cancel h2
          rw [he]
        | cons r₂' rest₂' =>
          exfalso
          simp only [List.map_cons, List.map_nil, joinSep] at h
          have h2 : jsonTabIdentity r₁ ++ [] =
              jsonTabIdentity r₂ ++ (',' :: joinSep [','] ((r₂' :: rest₂').map jsonTabIdentity)) := by
            simpa [List.append_assoc] using h
          obtain ⟨-, hs⟩ := jsonTabIdentity_cancel h2
          exact List.noConfusion hs
      | cons r₁' rest₁' =>
        cases rest₂ with
        | nil =>
          exfalso
          simp only [List.map_cons, List.map_nil, joinSep] at h
          have h2 : jsonTabIdentity r₁ ++ (',' :: joinSep [','] ((r₁' :: rest₁').map jsonTabIdentity)) =
              jsonTabIdentity r₂ ++ [] := by
            simpa [List.append_assoc] using h
          obtain ⟨-, hs⟩ := jsonTabIdentity_cancel h2
          exact List.noConfusion hs
        | cons r₂' rest₂' =>
          simp only [List.map_cons, joinSep] at h
          have h2 : jsonTabIdentity r₁ ++ (',' :: joinSep [','] ((r₁' :: rest₁').map jsonTabIdentity)) =
              jsonTabIdentity r₂ ++ (',' :: joinSep [','] ((r₂' :: rest₂').map jsonTabIdentity)) := by
            simpa [List.append_assoc] using h
          obtain ⟨he, hs⟩ := jsonTabIdentity_cancel h2
          have hs2 : joinSep [','] ((r₁' :: rest₁').map jsonTabIdentity) =
              joinSep [','] ((r₂' :: rest₂').map jsonTabIdentity) := by
            injection hs
          rw [he, ih (r₂' :: rest₂') hs2]

theorem jsonTabList_inj {l₁ l₂ : List TabIdentity}
    (h : jsonTabList l₁ = jsonTabList l₂) : l₁ = l₂ := by
  simp only [jsonTabList, List.cons.injEq, true_and] at h
  exact joinSep_comma_map_inj _ _ (List.append_cancel_right h)

/-- Projection of an API tab onto the five identity fields, translated from
getTabsSignatureSource in src/webextensions/background/index.js. -/
def getTabsSignatureSource (aApiTabs : List ApiTab) : List TabIdentity :=
  aApiTabs.map (·.identity)

/-- Modelled from the spec: the md5 digest function used by getTabsSignature
is an external library that is not part of the sources; the spec's
invariant (section 3: identical ordered field-tuples produce equal
signatures, any difference changes the signature) treats the fingerprint as
injective, so the digest is modelled as the identity on the serialized
text. -/
def md5 (s : JStr) : JStr := s

/-- Signature of a tab collection, translated from getTabsSignature in
src/webextensions/background/index.js: the md5 digest of the JSON rendering
of the identity-record list. -/
def getTabsSignature (aApiTabs : List ApiTab) : JStr :=
  md5 (jsonTabList (getTabsSignatureSource aApiTabs))

/-- Claim C7: getTabsSignature is deterministic, and two tab sequences have
the same signature exactly when their identity records (audible, incognito,
pinned, title, url) agree field-wise and order-wise. -/
theorem getTabsSignature_deterministic_inj (aApiTabs1 aApiTabs2 : List ApiTab) :
    getTabsSignature aApiTabs1 = getTabsSignature aApiTabs1 ∧
    (getTabsSignature aApiTabs1 = getTabsSignature aApiTabs2 ↔
      getTabsSignatureSource aApiTabs1 = getTabsSignatureSource aApiTabs2) := by
  refine ⟨rfl, ⟨fun h => jsonTabList_inj h, fun h => ?_⟩⟩
  simp only [getTabsSignature, md5, h]

/-- Signature text over a sequence of identity records.  Modelled from the
spec: section 3 defines a signature as an order-sensitive fingerprint of the
per-tab records, and section 9 fixes the layout to one discrete
signature-record per newline-delimited unit; the record rendering reuses the
JSON rendering, which is injective and newline-free. -/
def signatureOfIdentities (l : List TabIdentity) : JStr :=
  joinSep ['\x0a'] (l.map jsonTabIdentity)

/-- Modelled from the spec: Cache.getWindowSignature (common/cache.js is not
among the sources) computes the live signature over the window's current
tabs in order, per section 4.4 step 2b. -/
def getWindowSignature (tabs : List ApiTab) : JStr :=
  signatureOfIdentities (tabs.map (·.identity))

/-- Modelled from the spec: Cache.signatureFromTabsCache (common/cache.js is
not among the sources) recomputes a signature directly from the cached
markup, per section 4.1; the serialized markup is embedded as the sequence
of identity records it renders. -/
def signatureFromTabsCache (contents : List TabIdentity) : JStr :=
  signatureOfIdentities contents

/-- Modelled from the spec: Cache.trimTabsCache (common/cache.js is not
among the sources) drops the leading n records from the cached markup,
per section 4.1. -/
def trimTabsCache (contents : List TabIdentity) (n : Nat) : List TabIdentity :=
  contents.drop n

/-- Modelled from the spec: Cache.trimSignature (common/cache.js is not
among the sources) removes the first n records' contribution from a
signature, per section 4.1. -/
def trimSignature (sig : JStr) (n : Nat) : JStr :=
  joinSep ['\x0a'] ((splitOnNewline sig).drop n)

/-- Modelled from the spec: Cache.matcheSignatures (common/cache.js is not
among the sources; the source call site keeps this spelling) returns true
when the cached signature is empty or absent, or is an exact-or-prefix
match of the actual signature, per section 4.1. -/
def matcheSignatures (actual : JStr) (cached : Option JStr) : Bool :=
  match cached with
  | none => true
  | some c => c.isEmpty || c.isPrefixOf actual

/-- The three per-window session-store keys
(kWINDOW_STATE_CACHED_SIDEBAR, kWINDOW_STATE_CACHED_SIDEBAR_TABS_DIRTY,
kWINDOW_STATE_CACHED_SIDEBAR_COLLAPSED_DIRTY from common/constants.js). -/
inductive CacheKey
  | sidebar
  | tabsDirty
  | collapsedDirty
deriving DecidableEq

/-- Modelled from the spec: kSIDEBAR_CONTENTS_VERSION (common/constants.js
is not among the sources) is the current expected snapshot version tag;
only equality with it is ever observed, so its value is arbitrary. -/
def kSIDEBAR_CONTENTS_VERSION : Nat := 3

/-- The tabbar part of a stored snapshot, as written by updateCachedTabbar,
plus the two dirty-flag fields that getEffectiveWindowCache grafts onto it
before returning (absent, hence none, in a freshly written snapshot). -/
structure TabbarCache where
  contents : List TabIdentity
  style : JStr
  pinnedTabsCount : Nat
  tabsDirty : Option Bool := none
  collapsedDirty : Option Bool := none
deriving DecidableEq

/-- A stored snapshot.  `hasTabsField` embeds the truthiness of the `tabs`
property tested by the broken-cache check at sidebar-cache.js line 70;
updateCachedTabbar never writes such a property, so it writes false. -/
structure StoredCache where
  version : Nat
  tabbar : TabbarCache
  indent : Nat
  signature : Option JStr
  hasTabsField : Bool
deriving DecidableEq

/-- A value held in one session-store slot: a snapshot or a boolean flag. -/
inductive StoreVal
  | snap (c : StoredCache)
  | flag (b : Bool)
deriving DecidableEq

/-- The three session-store slots kept under one tab id. -/
structure StoreSlots where
  sidebar : Option StoredCache := none
  tabsDirty : Option Bool := none
  collapsedDirty : Option Bool := none
deriving DecidableEq

/-- The sidebar's tab container handle, carrying the allTabsRestored mark. -/
structure Container where
  allTabsRestored : Bool
deriving DecidableEq

/-- Module-level state of sidebar/sidebar-cache.js plus the collaborator
state it observes: the tracking flag, the useCachedTree configuration, the
owner handle, the target window's ordered tabs, the set of tab ids the
sidebar can still resolve, the session store, the pending rebuild timer,
the pending-tab-creation mark, the container handle, the tab bar style
attribute and the indent cache info. -/
structure SidebarState where
  mTracking : Bool := false
  useCachedTree : Bool := false
  mLastWindowCacheOwner : Option ApiTab := none
  liveTabs : List ApiTab := []
  existingTabIds : List Nat := []
  store : List (Nat × StoreSlots) := []
  waiting : Bool := false
  hasCreatingTab : Bool := false
  container : Option Container := none
  tabBarStyle : JStr := []
  indentCacheInfo : Nat := 0
deriving DecidableEq

/-- Externally visible events emitted by the embedded operations. -/
inductive Ev
  | cancelReservedUpdate
  | assignOwner (owner : Option ApiTab)
  | readStore (ownerId : Nat) (key : CacheKey)
  | removeStore (ownerId : Nat) (key : CacheKey)
  | writeStore (ownerId : Nat) (key : CacheKey)
  | computeWindowSignature
  | armRebuildTimer
  | dispatchRestored
deriving DecidableEq

/-- Reads one slot under a key. -/
def getKeySlot (slots : StoreSlots) : CacheKey → Option StoreVal
  | .sidebar => slots.sidebar.map StoreVal.snap
  | .tabsDirty => slots.tabsDirty.map StoreVal.flag
  | .collapsedDirty => slots.collapsedDirty.map StoreVal.flag

/-- Writes or removes (value none) one slot under a key.  A value of the
wrong shape for the key is ignored; no call site produces one. -/
def setKeySlot (slots : StoreSlots) : CacheKey → Option StoreVal → StoreSlots
  | .sidebar, none => { slots with sidebar := none }
  | .sidebar, some (.snap c) => { slots with sidebar := some c }
  | .sidebar, some (.flag _) => slots
  | .tabsDirty, none => { slots with tabsDirty := none }
  | .tabsDirty, some (.flag b) => { slots with tabsDirty := some b }
  | .tabsDirty, some (.snap _) => slots
  | .collapsedDirty, none => { slots with collapsedDirty := none }
  | .collapsedDirty, some (.flag b) => { slots with collapsedDirty := some b }
  | .collapsedDirty, some (.snap _) => slots

/-- Store update at a tab id: updates the first entry for the id in place;
a removal on a tab with no entry changes nothing, a write on a tab with no
entry creates the entry. -/
def storeWrite : List (Nat × StoreSlots) → Nat → CacheKey → Option StoreVal → List (Nat × StoreSlots)
  | [], _, _, none => []
  | [], i, key, some v => [(i, setKeySlot {} key (some v))]
  | (k, sl) :: rest, i, key, v =>
    if k = i then (k, setKeySlot sl key v) :: rest
    else (k, sl) :: storeWrite rest i key v

/-- Slots stored under a tab id (empty slots when the tab has none). -/
def lookupSlots (st : List (Nat × StoreSlots)) (i : Nat) : StoreSlots :=
  (st.lookup i).getD {}

/-- Translated from updateWindowCache (sidebar-cache.js lines 185-199): when
the owner handle is absent, or Tabs.getTabById no longer resolves it, the
call returns without touching the store; otherwise an undefined value
removes the key via sessions.removeTabValue and any other value is stored
via sessions.setTabValue, both keyed by the owner's tab id. -/
def updateWindowCache (s : SidebarState) (key : CacheKey) (value : Option StoreVal) :
    SidebarState × List Ev :=
  match s.mLastWindowCacheOwner with
  | none => (s, [])
  | some o =>
    if s.existingTabIds.contains o.id then
      match value with
      | none =>
        ({ s with store := storeWrite s.store o.id key none }, [.removeStore o.id key])
      | some v =>
        ({ s with store := storeWrite s.store o.id key (some v) }, [.writeStore o.id key])
    else (s, [])

/-- Translated from clearWindowCache (sidebar-cache.js lines 201-206):
removes the snapshot and both dirty flags. -/
def clearWindowCache (s : SidebarState) : SidebarState × List Ev :=
  let r1 := updateWindowCache s .sidebar none
  let r2 := updateWindowCache r1.1 .tabsDirty none
  let r3 := updateWindowCache r2.1 .collapsedDirty none
  (r3.1, r1.2 ++ r2.2 ++ r3.2)

/-- Translated from getWindowCache (sidebar-cache.js lines 217-222): null
without a storage access when no owner handle is held, otherwise
sessions.getTabValue under the owner's tab id. -/
def getWindowCache (s : SidebarState) (key : CacheKey) : Option StoreVal × List Ev :=
  match s.mLastWindowCacheOwner with
  | none => (none, [])
  | some o => (getKeySlot (lookupSlots s.store o.id) key, [.readStore o.id key])

/-- Translated from getWindowCacheOwner (sidebar-cache.js lines 224-227):
the api tab of the last tab in the window. -/
def getWindowCacheOwner (s : SidebarState) : Option ApiTab :=
  s.liveTabs.getLast?

/-- Translated from cancelReservedUpdateCachedTabbar (sidebar-cache.js
lines 257-262): clears the pending rebuild timer. -/
def cancelReservedUpdateCachedTabbar (s : SidebarState) : SidebarState :=
  { s with waiting := false }

/-- Options object of getEffectiveWindowCache. -/
structure GEWCOptions where
  ignorePinnedTabs : Bool := false
deriving DecidableEq

/-- The effective cache returned on success: the (mutated) snapshot plus
the offset and the live signature (sidebar-cache.js lines 124-125). -/
structure EffectiveCache where
  cache : StoredCache
  offset : Nat
  actualSignature : JStr
deriving DecidableEq

/-- Result of getEffectiveWindowCache: returned value, final state, trace. -/
structure GEWCOut where
  result : Option EffectiveCache
  state : SidebarState
  trace : List Ev
deriving DecidableEq

/-- Reads a stored value as a snapshot, as the destructuring at
sidebar-cache.js line 60 does. -/
def asSnap : Option StoreVal → Option StoredCache
  | some (.snap c) => some c
  | _ => none

/-- Reads a stored value as a dirty flag. -/
def asFlag : Option StoreVal → Option Bool
  | some (.flag b) => some b
  | _ => none

/-- Translated from the broken-cache condition (sidebar-cache.js lines
69-72): cache truthy, its `tabs` property truthy, the recorded signature
truthy, and the recorded signature different from the signature recomputed
from the cached contents. -/
def brokenCacheCheck (cache : Option StoredCache) (cachedSignature : Option JStr) : Bool :=
  match cache, cachedSignature with
  | some c, some sig =>
    c.hasTabsField && !sig.isEmpty && decide (sig ≠ signatureFromTabsCache c.tabbar.contents)
  | _, _ => false

/-- Translated from the ignorePinnedTabs step (sidebar-cache.js lines
80-87): when requested and the cache, its contents and the recorded
signature are all truthy, both the contents and the signature are trimmed
by the snapshot's recorded pinned-tab count. -/
def applyIgnorePinned (ignorePinnedTabs : Bool) (cache : Option StoredCache)
    (cachedSignature : Option JStr) : Option StoredCache × Option JStr :=
  match ignorePinnedTabs, cache, cachedSignature with
  | true, some c, some sig =>
    if !c.tabbar.contents.isEmpty && !sig.isEmpty then
      (some { c with tabbar :=
          { c.tabbar with contents := trimTabsCache c.tabbar.contents c.tabbar.pinnedTabsCount } },
       some (trimSignature sig c.tabbar.pinnedTabsCount))
    else (cache, cachedSignature)
  | _, _, _ => (cache, cachedSignature)

/-- Translated from the version gate (sidebar-cache.js lines 93-102): on a
version match the dirty flags and the current signature variable are
grafted onto the snapshot, otherwise the cache is dropped. -/
def applyVersionGate (cache : Option StoredCache) (tabsDirty collapsedDirty : Option Bool)
    (cachedSignature : Option JStr) : Option StoredCache :=
  match cache with
  | some c =>
    if c.version = kSIDEBAR_CONTENTS_VERSION then
      some { c with
        tabbar := { c.tabbar with tabsDirty := tabsDirty, collapsedDirty := collapsedDirty },
        signature := cachedSignature }
    else none
  | none => none

/-- JavaScript string coercion of a possibly-absent signature, as performed
by String.prototype.replace on a non-string pattern. -/
def jsStringOfOpt : Option JStr → JStr
  | some c => c
  | none => ['u', 'n', 'd', 'e', 'f', 'i', 'n', 'e', 'd']

/-- Translated from the offset computation (sidebar-cache.js line 124):
remove the first occurrence of the cached signature from the actual
signature, trim, split on newlines and count the nonempty parts. -/
def computeOffset (actualSignature : JStr) (cachedSignature : Option JStr) : Nat :=
  ((splitOnNewline (jsTrim (jsReplaceFirst actualSignature (jsStringOfOpt cachedSignature) []))).filter
    (fun part => !part.isEmpty)).length

/-- Translated from getEffectiveWindowCache (sidebar-cache.js lines 46-131).
The two Promise.all branches are serialized (query plus store reads first,
live signature second); the single-threaded event loop makes the two
branches non-interfering, so this serialization is behavior-preserving. -/
def getEffectiveWindowCache (options : GEWCOptions) (s : SidebarState) : GEWCOut :=
  let s0 := cancelReservedUpdateCachedTabbar s
  let owner := s0.liveTabs.getLast?
  let s1 := { s0 with mLastWindowCacheOwner := owner }
  let r0 := getWindowCache s1 .sidebar
  let r1 := getWindowCache s1 .tabsDirty
  let r2 := getWindowCache s1 .collapsedDirty
  let cache0 := asSnap r0.1
  let cachedSig0 := cache0.bind (·.signature)
  let afterCorrupt :=
    if brokenCacheCheck cache0 cachedSig0 then
      let rc := clearWindowCache s1
      ((none : Option StoredCache), (none : Option JStr), rc.1, rc.2)
    else (cache0, cachedSig0, s1, ([] : List Ev))
  let trimmed := applyIgnorePinned options.ignorePinnedTabs afterCorrupt.1 afterCorrupt.2.1
  let cache3 := applyVersionGate trimmed.1 (asFlag r1.1) (asFlag r2.1) trimmed.2
  let actualSignature := getWindowSignature s1.liveTabs
  let signatureMatched := matcheSignatures actualSignature trimmed.2
  let baseTrace := Ev.cancelReservedUpdate :: Ev.assignOwner owner ::
    (r0.2 ++ r1.2 ++ r2.2 ++ afterCorrupt.2.2.2 ++ [Ev.computeWindowSignature])
  match cache3, signatureMatched with
  | some c, true =>
    { result := some
        { cache := c,
          offset := computeOffset actualSignature trimmed.2,
          actualSignature := actualSignature },
      state := afterCorrupt.2.2.1,
      trace := baseTrace }
  | _, _ =>
    let rc2 := clearWindowCache afterCorrupt.2.2.1
    { result := none, state := rc2.1, trace := baseTrace ++ rc2.2 }

/-- An exception raised by the embedded JavaScript (dereferencing a member
of null raises a TypeError). -/
inductive JsError
  | typeError
deriving DecidableEq

/-- Translated from reserveToUpdateCachedTabbar (sidebar-cache.js lines
229-255): returns immediately unless tracking is on and useCachedTree is
enabled; awaiting pending tab creations only suspends, so the post-wait
state is the state passed in; then the container's allTabsRestored mark is
dereferenced (a TypeError when the container is null); when a restoration
is not in progress the stored cache is cleared and the rebuild timer is
(re)armed. -/
def reserveToUpdateCachedTabbar (s : SidebarState) : Except JsError (SidebarState × List Ev) :=
  if !s.mTracking || !s.useCachedTree then .ok (s, [])
  else
    match s.container with
    | none => .error .typeError
    | some c =>
      if c.allTabsRestored then .ok (s, [])
      else
        let rc := clearWindowCache s
        .ok ({ rc.1 with waiting := true }, rc.2 ++ [.armRebuildTimer])

/-- Translated from updateCachedTabbar (sidebar-cache.js lines 264-285):
no-op unless useCachedTree; computes the live signature, then dereferences
the container's allTabsRestored mark (a TypeError when the container is
null) and skips the write when a restoration is in progress; otherwise the
owner handle is refreshed to the last tab and a fresh snapshot (current
version tag, rendered contents, style, pinned count, indent info and the
live signature) is written.  The rendered innerHTML is embedded as the
identity records it renders. -/
def updateCachedTabbar (s : SidebarState) : Except JsError (SidebarState × List Ev) :=
  if !s.useCachedTree then .ok (s, [])
  else
    match s.container with
    | none => .error .typeError
    | some c =>
      if c.allTabsRestored then .ok (s, [.computeWindowSignature])
      else
        let owner := getWindowCacheOwner s
        let s1 := { s with mLastWindowCacheOwner := owner }
        let snap : StoredCache :=
          { version := kSIDEBAR_CONTENTS_VERSION,
            tabbar :=
              { contents := s.liveTabs.map (·.identity),
                style := s.tabBarStyle,
                pinnedTabsCount := (s.liveTabs.filter (·.identity.pinned)).length },
            indent := s.indentCacheInfo,
            signature := some (getWindowSignature s.liveTabs),
            hasTabsField := false }
        let rw := updateWindowCache s1 .sidebar (some (.snap snap))
        .ok (rw.1, .computeWindowSignature :: .assignOwner owner :: rw.2)

/-- One entry of a tree structure: the parent position (an integer, -1 for
a root) and the collapsed state. -/
structure StructItem where
  parent : Int
  collapsed : Bool
deriving DecidableEq

/-- Collaborator results consumed by restoreTabsFromCache: the outcome of
Cache.restoreTabsFromCacheInternal (an external collaborator), the
authoritative structure pulled from the background via
kCOMMAND_PULL_TREE_STRUCTURE, and the structure recomputed from the live
tabs via Tree.getTreeStructureFromTabs. -/
structure RestoreEnv where
  restoredInternal : Bool
  masterStructure : List StructItem
  currentStructure : List StructItem
deriving DecidableEq

/-- The DOM state touched by restoreTabsFromCache: whether a tab container
is attached, the tab bar's style attribute and the per-tab collapsed
states. -/
structure DomState where
  containerAttached : Bool
  tabBarStyle : JStr
  collapsedStates : List Bool
deriving DecidableEq

/-- Decimal digit characters of a natural number, as the JavaScript number
to string coercion renders it. -/
def natChars (n : Nat) : JStr :=
  if n = 0 then ['0'] else ((Nat.digits 10 n).map hexDigitChar).reverse

/-- Decimal rendering of an integer, as the JavaScript number to string
coercion inside Array.prototype.join renders it. -/
def intChars (i : Int) : JStr :=
  if i < 0 then '-' :: natChars i.natAbs else natChars i.natAbs

/-- The comma-joined parent chain compared at sidebar-cache.js line 158. -/
def joinParents (l : List StructItem) : JStr :=
  joinSep [','] (l.map (fun item => intChars item.parent))

/-- Translated from restoreTabsFromCache (sidebar-cache.js lines 133-183):
for offset at most zero the previous container is removed and the cached
style is applied; the internal applier then attaches the cache-derived
container exactly when it reports success; on success the parent chains of
the recomputed and the authoritative structures are compared as
comma-joined strings, a mismatch flips the result to false and removes the
just-inserted container; otherwise a truthy collapsedDirty flag syncs the
collapsed states; the restored notification fires at the end of the try
block. -/
def restoreTabsFromCache (cache : TabbarCache) (offset : Int) (env : RestoreEnv)
    (dom : DomState) : Bool × DomState × List Ev :=
  let dom1 :=
    if offset ≤ 0 then { dom with containerAttached := false, tabBarStyle := cache.style }
    else dom
  if env.restoredInternal then
    let dom2 := { dom1 with containerAttached := true }
    if joinParents env.currentStructure ≠ joinParents env.masterStructure then
      (false, { dom2 with containerAttached := false }, [.dispatchRestored])
    else
      let dom3 :=
        if cache.collapsedDirty.getD false then
          { dom2 with collapsedStates := env.currentStructure.map (·.collapsed) }
        else dom2
      (true, dom3, [.dispatchRestored])
  else (false, dom1, [])

theorem hexDigitChar_digit_mem :
    ∀ d, d < 10 → hexDigitChar d ∈ (['0','1','2','3','4','5','6','7','8','9'] : List Char) := by
  decide

theorem hexDigitChar_digit_inj :
    ∀ d₁, d₁ < 10 → ∀ d₂, d₂ < 10 → hexDigitChar d₁ = hexDigitChar d₂ → d₁ = d₂ := by
  decide

theorem natChars_mem (n : Nat) :
    ∀ c ∈ natChars n, c ∈ (['0','1','2','3','4','5','6','7','8','9'] : List Char) := by
  intro c hc
  unfold natChars at hc
  by_cases h : n = 0
  · simp [h] at hc
    simp [hc]
  · simp only [if_neg h, List.mem_reverse, List.mem_map] at hc
    obtain ⟨d, hd, rfl⟩ := hc
    exact hexDigitChar_digit_mem d (Nat.digits_lt_base (by norm_num) hd)

theorem natChars_ne_nil (n : Nat) : natChars n ≠ [] := by
  unfold natChars
  by_cases h : n = 0
  · simp [h]
  · simp only [if_neg h]
    simp [Nat.digits_ne_nil_iff_ne_zero.mpr h]

theorem map_hexDigitChar_digits_inj :
    ∀ l₁ l₂ : List Nat, (∀ d ∈ l₁, d < 10) → (∀ d ∈ l₂, d < 10) →
      l₁.map hexDigitChar = l₂.map hexDigitChar → l₁ = l₂ := by
  intro l₁
  induction l₁ with
  | nil =>
    intro l₂ _ _ h
    cases l₂ with
    | nil => rfl
    | cons d l => simp at h
  | cons d₁ rest₁ ih =>
    intro l₂ h₁ h₂ h
    cases l₂ with
    | nil => simp at h
    | cons d₂ rest₂ =>
      simp only [List.map_cons, List.cons.injEq] at h
      have hd := hexDigitChar_digit_inj d₁ (h₁ d₁ (by simp)) d₂ (h₂ d₂ (by simp)) h.1
      rw [hd, ih rest₂ (fun d hd => h₁ d (by simp [hd])) (fun d hd => h₂ d (by simp [hd])) h.2]

theorem natChars_inj {m n : Nat} (h : natChars m = natChars n) : m = n := by
  by_cases hm : m = 0
  · by_cases hn : n = 0
    · rw [hm, hn]
    · exfalso
      rw [natChars, natChars, if_pos hm, if_neg hn] at h
      have hrev : (Nat.digits 10 n).map hexDigitChar = ['0'] := by
        have := congrArg List.reverse h
        simpa using this.symm
      have hlen := congrArg List.length hrev
      simp at hlen
      obtain ⟨d, hd⟩ := List.length_eq_one.mp hlen
      rw [hd] at hrev
      simp at hrev
      have hdmem : d ∈ Nat.digits 10 n := by rw [hd]; simp
      have hdlt : d < 10 := Nat.digits_lt_base (by norm_num) hdmem
      have hd0 : d = 0 := hexDigitChar_digit_inj d hdlt 0 (by norm_num) (by simpa using hrev)
      have h2 := congrArg (Nat.ofDigits 10) hd
      rw [Nat.ofDigits_digits] at h2
      exact hn (by simpa [Nat.ofDigits, hd0] using h2)
  · by_cases hn : n = 0
    · exfalso
      rw [natChars, natChars, if_neg hm, if_pos hn] at h
      have hrev : (Nat.digits 10 m).map hexDigitChar = ['0'] := by
        have := congrArg List.reverse h
        simpa using this
      have hlen := congrArg List.length hrev
      simp at hlen
      obtain ⟨d, hd⟩ := List.length_eq_one.mp hlen
      rw [hd] at hrev
      simp at hrev
      have hdmem : d ∈ Nat.digits 10 m := by rw [hd]; simp
      have hdlt : d < 10 := Nat.digits_lt_base (by norm_num) hdmem
      have hd0 : d = 0 := hexDigitChar_digit_inj d hdlt 0 (by norm_num) (by simpa using hrev)
      have h2 := congrArg (Nat.ofDigits 10) hd
      rw [Nat.ofDigits_digits] at h2
      exact hm (by simpa [Nat.ofDigits, hd0] using h2)
    · rw [natChars, natChars, if_neg hm, if_neg hn] at h
      have hrev := congrArg List.reverse h
      simp only [List.reverse_reverse] at hrev
      have := map_hexDigitChar_digits_inj _ _
        (fun d hd => Nat.digits_lt_base (by norm_num) hd)
        (fun d hd => Nat.digits_lt_base (by norm_num) hd) hrev
      have h2 := congrArg (Nat.ofDigits 10) this
      rwa [Nat.ofDigits_digits, Nat.ofDigits_digits] at h2

theorem intChars_mem (i : Int) :
    ∀ c ∈ intChars i, c ∈ (['-','0','1','2','3','4','5','6','7','8','9'] : List Char) := by
  intro c hc
  unfold intChars at hc
  by_cases h : i < 0
  · rw [if_pos h] at hc
    rcases List.mem_cons.mp hc with h1 | h1
    · simp [h1]
    · have := natChars_mem _ _ h1
      simp only [List.mem_cons] at this ⊢
      tauto
  · rw [if_neg h] at hc
    have := natChars_mem _ _ hc
    simp only [List.mem_cons] at this ⊢
    tauto

theorem intChars_no_comma (i : Int) : ∀ c ∈ intChars i, c ≠ ',' := by
  intro c hc
  have := intChars_mem i c hc
  intro h
  rw [h] at this
  simp at this

theorem intChars_ne_nil (i : Int) : intChars i ≠ [] := by
  unfold intChars
  by_cases h : i < 0
  · simp [h]
  · simp only [if_neg h]
    exact natChars_ne_nil _

theorem intChars_inj {i j : Int} (h : intChars i = intChars j) : i = j := by
  unfold intChars at h
  by_cases hi : i < 0
  · by_cases hj : j < 0
    · rw [if_pos hi, if_pos hj] at h
      have h2 : natChars i.natAbs = natChars j.natAbs := by
        have := congrArg List.tail h
        simpa using this
      have := natChars_inj h2
      omega
    · exfalso
      rw [if_pos hi, if_neg hj] at h
      have : '-' ∈ natChars j.natAbs := by rw [← h]; simp
      have := natChars_mem _ _ this
      simp at this
  · by_cases hj : j < 0
    · exfalso
      rw [if_neg hi, if_pos hj] at h
      have : '-' ∈ natChars i.natAbs := by rw [h]; simp
      have := natChars_mem _ _ this
      simp at this
    · rw [if_neg hi, if_neg hj] at h
      have := natChars_inj h
      omega

/-- Comma-free tokens followed by empty-or-comma-headed remainders can be
cancelled from a concatenation. -/
theorem token_cancel :
    ∀ (x : JStr) (y s t : JStr), (∀ c ∈ x, c ≠ ',') → (∀ c ∈ y, c ≠ ',') →
      (s = [] ∨ ∃ s', s = ',' :: s') → (t = [] ∨ ∃ t', t = ',' :: t') →
      x ++ s = y ++ t → x = y ∧ s = t := by
  intro x
  induction x with
  | nil =>
    intro y s t _ hy hs _ h
    cases y with
    | nil => exact ⟨rfl, h⟩
    | cons d y' =>
      exfalso
      simp only [List.nil_append, List.cons_append] at h
      rcases hs with rfl | ⟨s', rfl⟩
      · exact List.noConfusion h
      · have hd : ',' = d ∧ s' = y' ++ t := by simpa using h
        exact hy d (by simp) hd.1.symm
  | cons c x' ih =>
    intro y s t hx hy hs ht h
    cases y with
    | nil =>
      exfalso
      simp only [List.nil_append, List.cons_append] at h
      rcases ht with rfl | ⟨t', rfl⟩
      · exact List.noConfusion h
      · have hc : c = ',' ∧ x' ++ s = t' := by simpa using h
        exact hx c (by simp) hc.1
    | cons d y' =>
      simp only [List.cons_append, List.cons.injEq] at h
      obtain ⟨rfl, h2⟩ := h
      obtain ⟨he, hs'⟩ := ih y' s t (fun a ha => hx a (by simp [ha]))
        (fun a ha => hy a (by simp [ha])) hs ht h2
      exact ⟨by rw [he], hs'⟩

theorem joinSep_comma_intChars_inj :
    ∀ l₁ l₂ : List Int,
      joinSep [','] (l₁.map intChars) = joinSep [','] (l₂.map intChars) → l₁ = l₂ := by
  intro l₁
  induction l₁ with
  | nil =>
    intro l₂ h
    cases l₂ with
    | nil => rfl
    | cons i₂ rest₂ =>
      exfalso
      cases rest₂ with
      | nil =>
        simp only [List.map_nil, List.map_cons, joinSep] at h
        exact intChars_ne_nil i₂ h.symm
      | cons i₂' rest₂' =>
        simp only [List.map_nil, List.map_cons, joinSep] at h
        rcases List.append_eq_nil.mp (List.append_eq_nil.mp h.symm).1 with ⟨h1, -⟩
        exact intChars_ne_nil i₂ h1
  | cons i₁ rest₁ ih =>
    intro l₂ h
    cases l₂ with
    | nil =>
      exfalso
      cases rest₁ with
      | nil =>
        simp only [List.map_nil, List.map_cons, joinSep] at h
        exact intChars_ne_nil i₁ h
      | cons i₁' rest₁' =>
        simp only [List.map_nil, List.map_cons, joinSep] at h
        rcases List.append_eq_nil.mp (List.append_eq_nil.mp h).1 with ⟨h1, -⟩
        exact intChars_ne_nil i₁ h1
    | cons i₂ rest₂ =>
      have key : intChars i₁ = intChars i₂ ∧
          joinSep [','] (rest₁.map intChars) = joinSep [','] (rest₂.map intChars) := by
        cases rest₁ with
        | nil =>
          cases rest₂ with
          | nil =>
            simp only [List.map_cons, List.map_nil, joinSep] at h
            exact ⟨h, rfl⟩
          | cons i₂' rest₂' =>
            exfalso
            simp only [List.map_cons, List.map_nil, joinSep] at h
            have h2 : intChars i₁ ++ [] =
                intChars i₂ ++ (',' :: joinSep [','] (intChars i₂' :: rest₂'.map intChars)) := by
              simpa [List.append_assoc] using h
            obtain ⟨-, hs⟩ := token_cancel _ _ _ _ (intChars_no_comma i₁) (intChars_no_comma i₂)
              (Or.inl rfl) (Or.inr ⟨_, rfl⟩) h2
            exact List.noConfusion hs
        | cons i₁' rest₁' =>
          cases rest₂ with
          | nil =>
            exfalso
            simp only [List.map_cons, List.map_nil, joinSep] at h
            have h2 : intChars i₁ ++ (',' :: joinSep [','] (intChars i₁' :: rest₁'.map intChars)) =
                intChars i₂ ++ [] := by
              simpa [List.append_assoc] using h
            obtain ⟨-, hs⟩ := token_cancel _ _ _ _ (intChars_no_comma i₁) (intChars_no_comma i₂)
              (Or.inr ⟨_, rfl⟩) (Or.inl rfl) h2
            exact List.noConfusion hs
          | cons i₂' rest₂' =>
            simp only [List.map_cons, joinSep] at h
            have h2 : intChars i₁ ++ (',' :: joinSep [','] (intChars i₁' :: rest₁'.map intChars)) =
                intChars i₂ ++ (',' :: joinSep [','] (intChars i₂' :: rest₂'.map intChars)) := by
              simpa [List.append_assoc] using h
            obtain ⟨he, hs⟩ := token_cancel _ _ _ _ (intChars_no_comma i₁) (intChars_no_comma i₂)
              (Or.inr ⟨_, rfl⟩) (Or.inr ⟨_, rfl⟩) h2
            refine ⟨he, ?_⟩
            have hs2 : joinSep [','] (intChars i₁' :: rest₁'.map intChars) =
                joinSep [','] (intChars i₂' :: rest₂'.map intChars) := by
              have := congrArg List.tail hs
              simpa using this
            simpa using hs2
      rw [intChars_inj key.1, ih rest₂ key.2]

theorem joinParents_inj {l₁ l₂ : List StructItem}
    (h : joinParents l₁ = joinParents l₂) :
    l₁.map (fun item => item.parent) = l₂.map (fun item => item.parent) := by
  have h2 : joinSep [','] ((l₁.map (fun item => item.parent)).map intChars) =
      joinSep [','] ((l₂.map (fun item => item.parent)).map intChars) := by
    simpa [joinParents, List.map_map, Function.comp] using h
  exact joinSep_comma_intChars_inj _ _ h2

theorem updateWindowCache_waiting (s : SidebarState) (k : CacheKey) (v : Option StoreVal) :
    (updateWindowCache s k v).1.waiting = s.waiting := by
  obtain ⟨tr, uc, ow, lt, ex, st, w, hc, co, tb, ic⟩ := s
  cases ow with
  | none => rfl
  | some o =>
    unfold updateWindowCache
    dsimp only
    split
    · cases v <;> rfl
    · rfl

theorem updateWindowCache_owner (s : SidebarState) (k : CacheKey) (v : Option StoreVal) :
    (updateWindowCache s k v).1.mLastWindowCacheOwner = s.mLastWindowCacheOwner := by
  obtain ⟨tr, uc, ow, lt, ex, st, w, hc, co, tb, ic⟩ := s
  cases ow with
  | none => rfl
  | some o =>
    unfold updateWindowCache
    dsimp only
    split
    · cases v <;> rfl
    · rfl

theorem updateWindowCache_existing (s : SidebarState) (k : CacheKey) (v : Option StoreVal) :
    (updateWindowCache s k v).1.existingTabIds = s.existingTabIds := by
  obtain ⟨tr, uc, ow, lt, ex, st, w, hc, co, tb, ic⟩ := s
  cases ow with
  | none => rfl
  | some o =>
    unfold updateWindowCache
    dsimp only
    split
    · cases v <;> rfl
    · rfl

theorem updateWindowCache_no_assign (s : SidebarState) (k : CacheKey) (v : Option StoreVal) :
    ∀ ev ∈ (updateWindowCache s k v).2, ∀ ow, ev ≠ Ev.assignOwner ow := by
  obtain ⟨tr, uc, ow, lt, ex, st, w, hc, co, tb, ic⟩ := s
  cases ow with
  | none => intro ev h; simp [updateWindowCache] at h
  | some o =>
    unfold updateWindowCache
    dsimp only
    split
    · cases v with
      | none => intro ev h ow2; simp at h; simp [h]
      | some v2 => intro ev h ow2; simp at h; simp [h]
    · intro ev h; simp at h

theorem clearWindowCache_waiting (s : SidebarState) :
    (clearWindowCache s).1.waiting = s.waiting := by
  simp [clearWindowCache, updateWindowCache_waiting]

theorem clearWindowCache_owner (s : SidebarState) :
    (clearWindowCache s).1.mLastWindowCacheOwner = s.mLastWindowCacheOwner := by
  simp [clearWindowCache, updateWindowCache_owner]

theorem clearWindowCache_existing (s : SidebarState) :
    (clearWindowCache s).1.existingTabIds = s.existingTabIds := by
  simp [clearWindowCache, updateWindowCache_existing]

theorem clearWindowCache_no_assign (s : SidebarState) :
    ∀ ev ∈ (clearWindowCache s).2, ∀ ow, ev ≠ Ev.assignOwner ow := by
  intro ev h ow
  simp only [clearWindowCache, List.mem_append] at h
  rcases h with (h | h) | h
  · exact updateWindowCache_no_assign _ _ _ ev h ow
  · exact updateWindowCache_no_assign _ _ _ ev h ow
  · exact updateWindowCache_no_assign _ _ _ ev h ow

/-- Claim C4: for a snapshot applied by restoreTabsFromCache whose
recomputed parent chain differs at any position from the authoritative
structure, the function returns false and no cache-derived container
remains attached. -/
theorem restoreTabsFromCache_rollback (cache : TabbarCache) (offset : Int)
    (env : RestoreEnv) (dom : DomState)
    (hres : env.restoredInternal = true)
    (hmis : env.currentStructure.map (fun item => item.parent) ≠
      env.masterStructure.map (fun item => item.parent)) :
    (restoreTabsFromCache cache offset env dom).1 = false ∧
    (restoreTabsFromCache cache offset env dom).2.1.containerAttached = false := by
  have hj : joinParents env.currentStructure ≠ joinParents env.masterStructure :=
    fun h => hmis (joinParents_inj h)
  simp [restoreTabsFromCache, hres, hj]

/-- Witness for C4 at a concrete mismatching input. -/
theorem restoreTabsFromCache_rollback_witness :
    (restoreTabsFromCache
      { contents := [], style := [], pinnedTabsCount := 0 } 0
      { restoredInternal := true,
        masterStructure := [{ parent := -1, collapsed := false }],
        currentStructure := [] }
      { containerAttached := true, tabBarStyle := [], collapsedStates := [] }).1 = false ∧
    (restoreTabsFromCache
      { contents := [], style := [], pinnedTabsCount := 0 } 0
      { restoredInternal := true,
        masterStructure := [{ parent := -1, collapsed := false }],
        currentStructure := [] }
      { containerAttached := true, tabBarStyle := [], collapsedStates := [] }).2.1.containerAttached = false :=
  restoreTabsFromCache_rollback _ _ _ _ rfl (by decide)

/-- Claim C10: with tracking off or useCachedTree disabled,
reserveToUpdateCachedTabbar returns at once with the state unchanged and
no events: no clear, no timer, no write. -/
theorem reserveToUpdateCachedTabbar_frame (s : SidebarState)
    (h : s.mTracking = false ∨ s.useCachedTree = false) :
    reserveToUpdateCachedTabbar s = .ok (s, []) := by
  rcases h with h | h <;> simp [reserveToUpdateCachedTabbar, h]

/-- Witness for C10 at a concrete input. -/
theorem reserveToUpdateCachedTabbar_frame_witness :
    reserveToUpdateCachedTabbar
      { mTracking := false, useCachedTree := true, mLastWindowCacheOwner := none,
        liveTabs := [], existingTabIds := [], store := [], waiting := true,
        hasCreatingTab := false, container := none, tabBarStyle := [], indentCacheInfo := 0 } =
    .ok ({ mTracking := false, useCachedTree := true, mLastWindowCacheOwner := none,
           liveTabs := [], existingTabIds := [], store := [], waiting := true,
           hasCreatingTab := false, container := none, tabBarStyle := [], indentCacheInfo := 0 }, []) :=
  reserveToUpdateCachedTabbar_frame _ (Or.inl rfl)

/-- Claim C8 (code bug): with tracking on and useCachedTree enabled but
Tabs.getTabsContainer returning null, reserveToUpdateCachedTabbar
dereferences allTabsRestored on null and raises a TypeError instead of
completing silently. -/
theorem reserveToUpdateCachedTabbar_null_container_throws :
    reserveToUpdateCachedTabbar
      { mTracking := true, useCachedTree := true, mLastWindowCacheOwner := none,
        liveTabs := [], existingTabIds := [], store := [], waiting := false,
        hasCreatingTab := false, container := none, tabBarStyle := [], indentCacheInfo := 0 } =
    .error .typeError := rfl

/-- Claim C5: every invocation of getEffectiveWindowCache emits the
cancellation of the pending rebuild timer as its very first event, and no
rebuild timer is pending in the resulting state. -/
theorem getEffectiveWindowCache_cancels_first (options : GEWCOptions) (s : SidebarState) :
    (∃ rest, (getEffectiveWindowCache options s).trace = Ev.cancelReservedUpdate :: rest) ∧
    (getEffectiveWindowCache options s).state.waiting = false := by
  constructor
  · simp only [getEffectiveWindowCache]
    split
    · exact ⟨_, rfl⟩
    · exact ⟨_, List.cons_append _ _ _⟩
  · simp only [getEffectiveWindowCache]
    split
    · split
      · rw [clearWindowCache_waiting]
        simp [cancelReservedUpdateCachedTabbar]
      · rfl
    · rw [clearWindowCache_waiting]
      split
      · rw [clearWindowCache_waiting]
        simp [cancelReservedUpdateCachedTabbar]
      · rfl

theorem updateWindowCache_bad (s : SidebarState) (key : CacheKey) (v : Option StoreVal)
    (hbad : s.mLastWindowCacheOwner = none ∨
      ∀ o, s.mLastWindowCacheOwner = some o → s.existingTabIds.contains o.id = false) :
    updateWindowCache s key v = (s, []) := by
  unfold updateWindowCache
  rcases hbad with h | h
  · rw [h]
  · cases ho : s.mLastWindowCacheOwner with
    | none => rfl
    | some o =>
      dsimp only
      rw [h o ho]
      rfl

theorem clearWindowCache_bad (s : SidebarState)
    (hbad : s.mLastWindowCacheOwner = none ∨
      ∀ o, s.mLastWindowCacheOwner = some o → s.existingTabIds.contains o.id = false) :
    clearWindowCache s = (s, []) := by
  simp [clearWindowCache, updateWindowCache_bad s CacheKey.sidebar none hbad,
    updateWindowCache_bad s CacheKey.tabsDirty none hbad,
    updateWindowCache_bad s CacheKey.collapsedDirty none hbad]

theorem storeWrite_none_noop (st : List (Nat × StoreSlots)) (i : Nat) (key : CacheKey)
    (h : lookupSlots st i = {}) : storeWrite st i key none = st := by
  induction st with
  | nil => rfl
  | cons hd rest ih =>
    obtain ⟨k, sl⟩ := hd
    by_cases hk : k = i
    · subst hk
      have hsl : sl = {} := by
        have h2 := h
        simp [lookupSlots, List.lookup_cons] at h2
        exact h2
      rw [hsl]
      simp only [storeWrite, if_pos rfl]
      cases key <;> rfl
    · have hik : (i == k) = false := beq_eq_false_iff_ne.mpr (Ne.symm hk)
      have h2 : lookupSlots rest i = {} := by
        have h3 := h
        simp [lookupSlots, List.lookup_cons, hik] at h3
        exact h3
      simp [storeWrite, hk, ih h2]

theorem storeWrite_clear3_idem (st : List (Nat × StoreSlots)) (i : Nat) :
    storeWrite (storeWrite (storeWrite
        (storeWrite (storeWrite (storeWrite st i .sidebar none) i .tabsDirty none)
          i .collapsedDirty none)
        i .sidebar none) i .tabsDirty none) i .collapsedDirty none =
    storeWrite (storeWrite (storeWrite st i .sidebar none) i .tabsDirty none)
      i .collapsedDirty none := by
  induction st with
  | nil => rfl
  | cons hd rest ih =>
    obtain ⟨k, sl⟩ := hd
    by_cases hk : k = i
    · subst hk
      simp [storeWrite, setKeySlot]
    · simp [storeWrite, hk, ih]

theorem clearWindowCache_good (s : SidebarState) (o : ApiTab)
    (ho : s.mLastWindowCacheOwner = some o)
    (hex : s.existingTabIds.contains o.id = true) :
    clearWindowCache s =
      ({ s with store := storeWrite (storeWrite (storeWrite s.store o.id .sidebar none)
          o.id .tabsDirty none) o.id .collapsedDirty none },
        [.removeStore o.id .sidebar, .removeStore o.id .tabsDirty,
          .removeStore o.id .collapsedDirty]) := by
  obtain ⟨tr, uc, ow, lt, ex, st, w, hc, co, tb, ic⟩ := s
  simp only at ho hex
  subst ho
  have hmem : o.id ∈ ex := by simpa using hex
  simp [clearWindowCache, updateWindowCache, hmem]

theorem clearWindowCache_empty_noop (s : SidebarState)
    (hempty : ∀ o, s.mLastWindowCacheOwner = some o → lookupSlots s.store o.id = {}) :
    (clearWindowCache s).1 = s := by
  cases ho : s.mLastWindowCacheOwner with
  | none => rw [clearWindowCache_bad s (Or.inl ho)]
  | some o =>
    by_cases hex : s.existingTabIds.contains o.id = true
    · rw [clearWindowCache_good s o ho hex]
      have he := hempty o ho
      simp only [storeWrite_none_noop _ _ _ he]
    · rw [clearWindowCache_bad s (Or.inr ?_)]
      intro o2 ho2
      rw [ho] at ho2
      cases ho2
      simpa using hex

theorem clearWindowCache_idem (s : SidebarState) :
    (clearWindowCache (clearWindowCache s).1).1 = (clearWindowCache s).1 := by
  cases ho : s.mLastWindowCacheOwner with
  | none =>
    rw [clearWindowCache_bad s (Or.inl ho)]
    rw [clearWindowCache_bad s (Or.inl ho)]
  | some o =>
    by_cases hex : s.existingTabIds.contains o.id = true
    · rw [clearWindowCache_good s o ho hex]
      rw [clearWindowCache_good _ o (by simpa using ho) (by simpa using hex)]
      simp [storeWrite_clear3_idem]
    · have hbad : s.mLastWindowCacheOwner = none ∨
          ∀ o2, s.mLastWindowCacheOwner = some o2 → s.existingTabIds.contains o2.id = false := by
        refine Or.inr fun o2 ho2 => ?_
        rw [ho] at ho2
        cases ho2
        simpa using hex
      rw [clearWindowCache_bad s hbad, clearWindowCache_bad s hbad]

/-- Claim C6: with an absent or stale owner handle every store write,
delete and full clear is a silent no-op (the embedded operations are total,
so no exception can escape); clearing an empty or absent cache leaves the
state unchanged; and clearing twice yields the same state as clearing
once. -/
theorem windowCacheStore_noop_and_idem (s : SidebarState) (key : CacheKey) (v : Option StoreVal)
    (hbad : s.mLastWindowCacheOwner = none ∨
      ∀ o, s.mLastWindowCacheOwner = some o → s.existingTabIds.contains o.id = false)
    (s₂ : SidebarState)
    (hempty : ∀ o, s₂.mLastWindowCacheOwner = some o → lookupSlots s₂.store o.id = {})
    (s₃ : SidebarState) :
    updateWindowCache s key v = (s, []) ∧
    clearWindowCache s = (s, []) ∧
    (clearWindowCache s₂).1 = s₂ ∧
    (clearWindowCache (clearWindowCache s₃).1).1 = (clearWindowCache s₃).1 :=
  ⟨updateWindowCache_bad s key v hbad, clearWindowCache_bad s hbad,
    clearWindowCache_empty_noop s₂ hempty, clearWindowCache_idem s₃⟩

/-- Concrete fixtures used by witnesses. -/
def sampleTab : ApiTab := ⟨1, ⟨false, false, false, [], []⟩⟩

/-- Concrete stored snapshot used by witnesses. -/
def sampleSnap : StoredCache :=
  { version := 3, tabbar := { contents := [], style := [], pinnedTabsCount := 0 },
    indent := 0, signature := none, hasTabsField := false }

/-- Concrete state whose owner handle is stale, used by witnesses. -/
def staleOwnerState : SidebarState :=
  { mLastWindowCacheOwner := some sampleTab }

/-- Concrete state with a live owner and a stored snapshot, used by
witnesses. -/
def storedState : SidebarState :=
  { mLastWindowCacheOwner := some sampleTab, existingTabIds := [1],
    store := [(1, { sidebar := some sampleSnap })] }

/-- Witness for C6 at concrete inputs: a stale-owner write is skipped, and
clearing twice on a live owner with a stored snapshot equals clearing
once. -/
theorem windowCacheStore_noop_and_idem_witness :
    updateWindowCache staleOwnerState .sidebar none = (staleOwnerState, []) ∧
    (clearWindowCache (clearWindowCache storedState).1).1 = (clearWindowCache storedState).1 :=
  ⟨(windowCacheStore_noop_and_idem staleOwnerState .sidebar none
      (Or.inr fun o ho => by cases ho; rfl) {} (fun o ho => by cases ho) storedState).1,
    (windowCacheStore_noop_and_idem staleOwnerState .sidebar none
      (Or.inr fun o ho => by cases ho; rfl) {} (fun o ho => by cases ho) storedState).2.2.2⟩

theorem applyIgnorePinned_none (b : Bool) (cs : Option JStr) :
    applyIgnorePinned b none cs = (none, cs) := by
  cases b <;> cases cs <;> rfl

theorem applyIgnorePinned_some_version (b : Bool) (cs : Option JStr) (c : StoredCache) :
    ∃ c' cs', applyIgnorePinned b (some c) cs = (some c', cs') ∧ c'.version = c.version := by
  cases b with
  | false => exact ⟨c, cs, rfl, rfl⟩
  | true =>
    cases cs with
    | none => exact ⟨c, none, rfl, rfl⟩
    | some sig =>
      unfold applyIgnorePinned
      dsimp only
      split
      · exact ⟨_, _, rfl, rfl⟩
      · exact ⟨c, some sig, rfl, rfl⟩

theorem applyVersionGate_ne_version (cache : Option StoredCache) (td cd : Option Bool)
    (cs : Option JStr) (h : ∀ c, cache = some c → c.version ≠ kSIDEBAR_CONTENTS_VERSION) :
    applyVersionGate cache td cd cs = none := by
  cases cache with
  | none => rfl
  | some c => simp [applyVersionGate, h c rfl]

/-- Claim C3: a fetched snapshot whose version differs from
kSIDEBAR_CONTENTS_VERSION is never returned: getEffectiveWindowCache yields
null regardless of the signature comparison. -/
theorem getEffectiveWindowCache_version_gate (options : GEWCOptions) (s : SidebarState)
    (ow : ApiTab) (snap : StoredCache)
    (how : s.liveTabs.getLast? = some ow)
    (hsnap : (lookupSlots s.store ow.id).sidebar = some snap)
    (hver : snap.version ≠ kSIDEBAR_CONTENTS_VERSION) :
    (getEffectiveWindowCache options s).result = none := by
  simp only [getEffectiveWindowCache, cancelReservedUpdateCachedTabbar]
  rw [how]
  simp only [getWindowCache, getKeySlot, hsnap, Option.map_some', asSnap, Option.some_bind]
  by_cases hb : brokenCacheCheck (some snap) snap.signature = true
  · rw [if_pos hb, applyIgnorePinned_none,
      applyVersionGate_ne_version _ _ _ _ (fun c hc => by cases hc)]
  · rw [if_neg hb]
    obtain ⟨c', cs', heq, hv'⟩ :=
      applyIgnorePinned_some_version options.ignorePinnedTabs (snap.signature) snap
    rw [heq,
      applyVersionGate_ne_version _ _ _ _ (fun c hc => by cases hc; rw [hv']; exact hver)]

/-- Concrete version-skewed snapshot, used by witnesses. -/
def versionSkewSnap : StoredCache :=
  { version := 4, tabbar := { contents := [], style := [], pinnedTabsCount := 0 },
    indent := 0, signature := none, hasTabsField := false }

/-- Concrete state holding a version-skewed snapshot, used by witnesses. -/
def versionSkewState : SidebarState :=
  { liveTabs := [sampleTab], existingTabIds := [1],
    store := [(1, { sidebar := some versionSkewSnap })] }

/-- Witness for C3 at a concrete version-skewed snapshot. -/
theorem getEffectiveWindowCache_version_gate_witness :
    (getEffectiveWindowCache {} versionSkewState).result = none :=
  getEffectiveWindowCache_version_gate {} versionSkewState sampleTab
    versionSkewSnap (by decide) (by decide) (by decide)

/-- A snapshot whose recorded signature does not match the signature
recomputed from its own cached contents (the contents render no records,
the recorded signature covers one). -/
def corruptSnap : StoredCache :=
  { version := kSIDEBAR_CONTENTS_VERSION,
    tabbar := { contents := [], style := [], pinnedTabsCount := 0 },
    indent := 0,
    signature := some (signatureOfIdentities [⟨false, false, false, [], []⟩]),
    hasTabsField := false }

/-- Concrete state holding the corrupt snapshot while the live tabs happen
to match its recorded signature. -/
def corruptState : SidebarState :=
  { liveTabs := [sampleTab], existingTabIds := [1],
    store := [(1, { sidebar := some corruptSnap })] }

/-- Concrete state from which updateCachedTabbar performs a snapshot
write. -/
def writeState : SidebarState :=
  { useCachedTree := true, mLastWindowCacheOwner := some sampleTab,
    liveTabs := [sampleTab], existingTabIds := [1], container := some ⟨false⟩ }

/-- Claim C1 (code bug): the corruption check at sidebar-cache.js line 70
guards on a `tabs` property that updateCachedTabbar never writes, so it is
dead for every snapshot this module stores: a snapshot whose recorded
signature differs from the signature recomputed from its own contents is
returned as an effective cache (when the live signature happens to match
the recorded one) and the store is not cleared, where the claim requires it
to be discarded and the store cleared. -/
theorem getEffectiveWindowCache_returns_corrupt_snapshot :
    corruptSnap.signature ≠ some (signatureFromTabsCache corruptSnap.tabbar.contents) ∧
    ((getEffectiveWindowCache {} corruptState).result).isSome = true ∧
    (getEffectiveWindowCache {} corruptState).state.store = corruptState.store ∧
    ((updateCachedTabbar writeState).toOption.map
      (fun p => (lookupSlots p.1.store 1).sidebar.map (fun c => c.hasTabsField))) =
      some (some false) := by
  refine ⟨by decide, by decide, by decide, by decide⟩

/-- Recognizes owner-handle assignment events. -/
def isAssignEv : Ev → Bool
  | .assignOwner _ => true
  | _ => false

/-- Checks that a storage access event uses the given owner tab id. -/
def evUsesOwner (o : Option Nat) : Ev → Bool
  | .readStore i _ => o = some i
  | .removeStore i _ => o = some i
  | .writeStore i _ => o = some i
  | _ => true

/-- Whether updateCachedTabbar reaches its snapshot write: useCachedTree on
and the container present without the allTabsRestored mark. -/
def willWriteCachedTabbar (s : SidebarState) : Bool :=
  s.useCachedTree &&
    (match s.container with
     | some c => !c.allTabsRestored
     | none => false)

theorem updateWindowCache_filter_assign (s : SidebarState) (k : CacheKey) (v : Option StoreVal) :
    (updateWindowCache s k v).2.filter isAssignEv = [] := by
  unfold updateWindowCache
  cases ho : s.mLastWindowCacheOwner with
  | none => rfl
  | some o =>
    dsimp only
    split
    · cases v <;> rfl
    · rfl

theorem clearWindowCache_filter_assign (s : SidebarState) :
    (clearWindowCache s).2.filter isAssignEv = [] := by
  simp [clearWindowCache, List.filter_append, updateWindowCache_filter_assign]

theorem getWindowCache_filter_assign (s : SidebarState) (k : CacheKey) :
    (getWindowCache s k).2.filter isAssignEv = [] := by
  unfold getWindowCache
  cases ho : s.mLastWindowCacheOwner with
  | none => rfl
  | some o => rfl

theorem updateWindowCache_all_uses (s : SidebarState) (k : CacheKey) (v : Option StoreVal) :
    (updateWindowCache s k v).2.all
      (evUsesOwner (s.mLastWindowCacheOwner.map (fun t => t.id))) = true := by
  unfold updateWindowCache
  cases ho : s.mLastWindowCacheOwner with
  | none => rfl
  | some o =>
    dsimp only
    split
    · cases v <;> simp [ho, evUsesOwner]
    · rfl

theorem clearWindowCache_all_uses (s : SidebarState) :
    (clearWindowCache s).2.all
      (evUsesOwner (s.mLastWindowCacheOwner.map (fun t => t.id))) = true := by
  simp only [clearWindowCache, List.all_append]
  have h1 := updateWindowCache_all_uses s .sidebar none
  have h2 := updateWindowCache_all_uses (updateWindowCache s .sidebar none).1 .tabsDirty none
  rw [updateWindowCache_owner] at h2
  have h3 := updateWindowCache_all_uses
    (updateWindowCache (updateWindowCache s .sidebar none).1 .tabsDirty none).1 .collapsedDirty none
  rw [updateWindowCache_owner, updateWindowCache_owner] at h3
  simp [h1, h2, h3]

theorem getWindowCache_all_uses (s : SidebarState) (k : CacheKey) :
    (getWindowCache s k).2.all
      (evUsesOwner (s.mLastWindowCacheOwner.map (fun t => t.id))) = true := by
  unfold getWindowCache
  cases ho : s.mLastWindowCacheOwner with
  | none => rfl
  | some o => simp [ho, evUsesOwner]

theorem getWindowCache_mem_no_assign (s : SidebarState) (k : CacheKey) :
    ∀ ev ∈ (getWindowCache s k).2, isAssignEv ev = false := by
  unfold getWindowCache
  cases ho : s.mLastWindowCacheOwner with
  | none => intro ev h; simp at h
  | some o =>
    intro ev h
    simp only [List.mem_singleton] at h
    rw [h]
    rfl

theorem isAssignEv_false_of_ne (ev : Ev) (h : ∀ ow, ev ≠ Ev.assignOwner ow) :
    isAssignEv ev = false := by
  cases ev with
  | assignOwner ow => exact absurd rfl (h ow)
  | cancelReservedUpdate => rfl
  | readStore i k => rfl
  | removeStore i k => rfl
  | writeStore i k => rfl
  | computeWindowSignature => rfl
  | armRebuildTimer => rfl
  | dispatchRestored => rfl

theorem getWindowCache_uses_mem (s : SidebarState) (k : CacheKey) :
    ∀ ev ∈ (getWindowCache s k).2,
      evUsesOwner (s.mLastWindowCacheOwner.map (fun t => t.id)) ev = true := by
  intro ev hev
  have := getWindowCache_all_uses s k
  rw [List.all_eq_true] at this
  exact this ev hev

theorem clearWindowCache_uses_mem (s : SidebarState) :
    ∀ ev ∈ (clearWindowCache s).2,
      evUsesOwner (s.mLastWindowCacheOwner.map (fun t => t.id)) ev = true := by
  intro ev hev
  have := clearWindowCache_all_uses s
  rw [List.all_eq_true] at this
  exact this ev hev

theorem getEffectiveWindowCache_assign_discipline (options : GEWCOptions) (s : SidebarState) :
    (getEffectiveWindowCache options s).trace.filter isAssignEv =
      [Ev.assignOwner s.liveTabs.getLast?] ∧
    (getEffectiveWindowCache options s).trace.all
      (evUsesOwner (s.liveTabs.getLast?.map (fun t => t.id))) = true := by
  have hfilter : ∀ (Y : List Ev) (ow : Option ApiTab),
      (∀ ev ∈ Y, isAssignEv ev = false) →
      List.filter isAssignEv (Ev.cancelReservedUpdate :: Ev.assignOwner ow :: Y) =
        [Ev.assignOwner ow] := by
    intro Y ow hY
    rw [List.filter_cons_of_neg (by simp [isAssignEv]),
      List.filter_cons_of_pos (by rfl)]
    rw [List.filter_eq_nil.mpr (fun a ha => by simp [hY a ha])]
  constructor
  · simp only [getEffectiveWindowCache, cancelReservedUpdateCachedTabbar]
    split
    · apply hfilter
      intro ev hev
      simp only [List.mem_append, List.mem_singleton] at hev
      rcases hev with ((((h | h) | h) | h) | rfl)
      · exact getWindowCache_mem_no_assign _ _ ev h
      · exact getWindowCache_mem_no_assign _ _ ev h
      · exact getWindowCache_mem_no_assign _ _ ev h
      · split at h
        · exact isAssignEv_false_of_ne ev (fun ow => clearWindowCache_no_assign _ ev h ow)
        · simp at h
      · rfl
    · rw [List.cons_append, List.cons_append]
      apply hfilter
      intro ev hev
      simp only [List.mem_append, List.mem_singleton] at hev
      rcases hev with (((((h | h) | h) | h) | rfl) | h)
      · exact getWindowCache_mem_no_assign _ _ ev h
      · exact getWindowCache_mem_no_assign _ _ ev h
      · exact getWindowCache_mem_no_assign _ _ ev h
      · split at h
        · exact isAssignEv_false_of_ne ev (fun ow => clearWindowCache_no_assign _ ev h ow)
        · simp at h
      · rfl
      · exact isAssignEv_false_of_ne ev (fun ow => clearWindowCache_no_assign _ ev h ow)
  · simp only [getEffectiveWindowCache, cancelReservedUpdateCachedTabbar]
    rw [List.all_eq_true]
    intro ev hev
    split at hev
    · simp only [List.mem_cons, List.mem_append, List.mem_singleton] at hev
      rcases hev with rfl | rfl | ((((h | h) | h) | h) | rfl | hnil)
      · rfl
      · rfl
      · exact getWindowCache_uses_mem _ _ ev h
      · exact getWindowCache_uses_mem _ _ ev h
      · exact getWindowCache_uses_mem _ _ ev h
      · split at h
        · exact clearWindowCache_uses_mem _ ev h
        · simp at h
      · rfl
      · cases hnil
    · simp only [List.cons_append, List.mem_cons, List.mem_append, List.mem_singleton] at hev
      rcases hev with rfl | rfl | (((((h | h) | h) | h) | rfl | hnil) | h)
      · rfl
      · rfl
      · exact getWindowCache_uses_mem _ _ ev h
      · exact getWindowCache_uses_mem _ _ ev h
      · exact getWindowCache_uses_mem _ _ ev h
      · split at h
        · exact clearWindowCache_uses_mem _ ev h
        · simp at h
      · rfl
      · cases hnil
      · split at h
        · have h2 := clearWindowCache_uses_mem _ ev h
          rw [clearWindowCache_owner] at h2
          exact h2
        · exact clearWindowCache_uses_mem _ ev h

theorem updateWindowCache_uses_mem (s : SidebarState) (k : CacheKey) (v : Option StoreVal) :
    ∀ ev ∈ (updateWindowCache s k v).2,
      evUsesOwner (s.mLastWindowCacheOwner.map (fun t => t.id)) ev = true := by
  intro ev hev
  have := updateWindowCache_all_uses s k v
  rw [List.all_eq_true] at this
  exact this ev hev

theorem updateCachedTabbar_assign_discipline (s : SidebarState) :
    (match updateCachedTabbar s with
     | .ok p => p.2.filter isAssignEv =
         (if willWriteCachedTabbar s then [Ev.assignOwner (getWindowCacheOwner s)] else []) ∧
         p.2.all (evUsesOwner ((getWindowCacheOwner s).map (fun t => t.id))) = true
     | .error _ => True) := by
  unfold updateCachedTabbar
  cases huct : s.useCachedTree with
  | false => simp [willWriteCachedTabbar, huct]
  | true =>
    cases hco : s.container with
    | none => simp
    | some c =>
      cases har : c.allTabsRestored with
      | true => simp [willWriteCachedTabbar, huct, hco, har, isAssignEv, evUsesOwner]
      | false =>
        simp only [Bool.not_true, Bool.false_eq_true, if_false, har, Bool.not_false, if_true]
        constructor
        · rw [List.filter_cons_of_neg (by simp [isAssignEv]),
            List.filter_cons_of_pos (by rfl),
            List.filter_eq_nil.mpr (fun a ha => by
              rw [isAssignEv_false_of_ne a
                (fun ow => updateWindowCache_no_assign _ _ _ a ha ow)]
              exact Bool.false_ne_true)]
          simp [willWriteCachedTabbar, huct, hco, har]
        · rw [List.all_eq_true]
          intro ev hev
          simp only [List.mem_cons] at hev
          rcases hev with rfl | rfl | h
          · rfl
          · rfl
          · exact updateWindowCache_uses_mem _ _ _ ev h

theorem reserveToUpdateCachedTabbar_no_assign (s : SidebarState) :
    (match reserveToUpdateCachedTabbar s with
     | .ok p => p.2.filter isAssignEv = []
     | .error _ => True) := by
  unfold reserveToUpdateCachedTabbar
  by_cases h1 : (!s.mTracking || !s.useCachedTree) = true
  · rw [if_pos h1]
    rfl
  · rw [if_neg h1]
    cases hco : s.container with
    | none => trivial
    | some c =>
      cases har : c.allTabsRestored with
      | true => simp [har]
      | false =>
        simp only [har, Bool.false_eq_true, if_false]
        simp [List.filter_append, clearWindowCache_filter_assign, isAssignEv]

theorem restoreTabsFromCache_no_assign (cache : TabbarCache) (offset : Int)
    (env : RestoreEnv) (dom : DomState) :
    (restoreTabsFromCache cache offset env dom).2.2.filter isAssignEv = [] := by
  unfold restoreTabsFromCache
  split <;> split <;> first | rfl | (split <;> rfl)

/-- Claim C9: the owner handle is assigned exactly once per
getEffectiveWindowCache invocation (to the last tab of the current window)
and exactly once per updateCachedTabbar invocation that reaches its
snapshot write (to the last tab's api handle); updateWindowCache,
clearWindowCache, reserveToUpdateCachedTabbar and restoreTabsFromCache
never assign it; and every storage read and write of one
getEffectiveWindowCache or updateCachedTabbar cycle uses that same
handle. -/
theorem ownerHandle_refresh_discipline (options : GEWCOptions) (s : SidebarState)
    (s₂ : SidebarState) (s₃ : SidebarState) (key : CacheKey) (v : Option StoreVal)
    (s₄ : SidebarState) (cache : TabbarCache) (offset : Int) (env : RestoreEnv)
    (dom : DomState) :
    ((getEffectiveWindowCache options s).trace.filter isAssignEv =
      [Ev.assignOwner s.liveTabs.getLast?] ∧
     (getEffectiveWindowCache options s).trace.all
       (evUsesOwner (s.liveTabs.getLast?.map (fun t => t.id))) = true) ∧
    (match updateCachedTabbar s₂ with
     | .ok p => p.2.filter isAssignEv =
         (if willWriteCachedTabbar s₂ then [Ev.assignOwner (getWindowCacheOwner s₂)] else []) ∧
         p.2.all (evUsesOwner ((getWindowCacheOwner s₂).map (fun t => t.id))) = true
     | .error _ => True) ∧
    (updateWindowCache s₃ key v).2.filter isAssignEv = [] ∧
    (clearWindowCache s₃).2.filter isAssignEv = [] ∧
    (match reserveToUpdateCachedTabbar s₄ with
     | .ok p => p.2.filter isAssignEv = []
     | .error _ => True) ∧
    (restoreTabsFromCache cache offset env dom).2.2.filter isAssignEv = [] :=
  ⟨getEffectiveWindowCache_assign_discipline options s,
    updateCachedTabbar_assign_discipline s₂,
    updateWindowCache_filter_assign s₃ key v,
    clearWindowCache_filter_assign s₃,
    reserveToUpdateCachedTabbar_no_assign s₄,
    restoreTabsFromCache_no_assign cache offset env dom⟩

theorem hexDigitChar_ne_newline : ∀ n, hexDigitChar n ≠ '\x0a' := by
  intro n
  unfold hexDigitChar
  split <;> decide

theorem escChar_no_newline (c : Char) : '\x0a' ∉ escChar c := by
  unfold escChar
  by_cases h1 : c = '"'
  · simp [h1]
  · by_cases h2 : c = '\\'
    · simp [h1, h2]
    · by_cases h3 : c = '\x08'
      · simp [h1, h2, h3]
      · by_cases h4 : c = '\x09'
        · simp [h1, h2, h3, h4]
        · by_cases h5 : c = '\x0a'
          · simp [h1, h2, h3, h4, h5]
          · by_cases h6 : c = '\x0c'
            · simp [h1, h2, h3, h4, h5, h6]
            · by_cases h7 : c = '\x0d'
              · simp [h1, h2, h3, h4, h5, h6, h7]
              · by_cases h8 : c.toNat < 32
                · simp only [if_neg h1, if_neg h2, if_neg h3, if_neg h4, if_neg h5,
                    if_neg h6, if_neg h7, if_pos h8]
                  intro hmem
                  simp only [List.mem_cons] at hmem
                  rcases hmem with h | h | h | h | h | h
                  · exact absurd h.symm (by decide)
                  · exact absurd h.symm (by decide)
                  · exact absurd h.symm (by decide)
                  · exact absurd h.symm (by decide)
                  · exact absurd h.symm (hexDigitChar_ne_newline _)
                  · simp at h
                    exact absurd h.symm (hexDigitChar_ne_newline _)
                · simp only [if_neg h1, if_neg h2, if_neg h3, if_neg h4, if_neg h5,
                    if_neg h6, if_neg h7, if_neg h8]
                  intro hmem
                  simp only [List.mem_singleton] at hmem
                  exact h5 hmem.symm

theorem escStr_no_newline (x : JStr) : '\x0a' ∉ escStr x := by
  induction x with
  | nil => simp [escStr]
  | cons c rest ih =>
    simp only [escStr, List.mem_append]
    rintro (h | h)
    · exact escChar_no_newline c h
    · exact ih h

theorem jsonBool_no_newline (b : Bool) : '\x0a' ∉ jsonBool b := by
  cases b <;> decide

theorem not_mem_append_chars {c : Char} {a b : JStr} (ha : c ∉ a) (hb : c ∉ b) :
    c ∉ a ++ b := by
  simp only [List.mem_append]
  rintro (h | h)
  · exact ha h
  · exact hb h

theorem jsonTabIdentity_no_newline (r : TabIdentity) : '\x0a' ∉ jsonTabIdentity r := by
  unfold jsonTabIdentity
  exact not_mem_append_chars (not_mem_append_chars (not_mem_append_chars
    (not_mem_append_chars (not_mem_append_chars (not_mem_append_chars
      (not_mem_append_chars (not_mem_append_chars (not_mem_append_chars
        (not_mem_append_chars (by decide) (jsonBool_no_newline r.audible))
        (by decide)) (jsonBool_no_newline r.incognito)) (by decide))
      (jsonBool_no_newline r.pinned)) (by decide)) (escStr_no_newline r.title))
    (by decide)) (escStr_no_newline r.url)) (by decide)

theorem splitOnNewline_ne_nil (x : JStr) : splitOnNewline x ≠ [] := by
  induction x with
  | nil => simp [splitOnNewline]
  | cons c rest ih =>
    unfold splitOnNewline
    split
    · simp
    · unfold consHeadSplit
      cases h : splitOnNewline rest <;> simp

theorem splitOnNewline_append_nf (x : JStr) (hx : '\x0a' ∉ x) (r : JStr)
    (l : JStr) (ls : List JStr) (hr : splitOnNewline r = l :: ls) :
    splitOnNewline (x ++ r) = (x ++ l) :: ls := by
  induction x with
  | nil => simpa using hr
  | cons c x' ih =>
    have hc : c ≠ '\x0a' := fun h => hx (by simp [h])
    have hx' : '\x0a' ∉ x' := fun h => hx (by simp [h])
    simp only [List.cons_append]
    unfold splitOnNewline
    rw [if_neg hc, ih hx']
    rfl

theorem splitOnNewline_single (x : JStr) (hx : '\x0a' ∉ x) :
    splitOnNewline x = [x] := by
  have := splitOnNewline_append_nf x hx [] [] [] rfl
  simpa using this

theorem splitOnNewline_joinSep (l : List JStr) (hne : l ≠ [])
    (hnf : ∀ x ∈ l, '\x0a' ∉ x) :
    splitOnNewline (joinSep ['\x0a'] l) = l := by
  induction l with
  | nil => exact absurd rfl hne
  | cons x rest ih =>
    cases rest with
    | nil =>
      simp only [joinSep]
      exact splitOnNewline_single x (hnf x (by simp))
    | cons y rest' =>
      have hjr := ih (by simp) (fun a ha => hnf a (by simp [ha]))
      have hsplit : splitOnNewline ('\x0a' :: joinSep ['\x0a'] (y :: rest')) =
          [] :: (y :: rest') := by
        unfold splitOnNewline
        rw [if_pos rfl, hjr]
      have := splitOnNewline_append_nf x (hnf x (by simp))
        ('\x0a' :: joinSep ['\x0a'] (y :: rest')) [] (y :: rest') hsplit
      simp only [joinSep]
      rw [show x ++ ['\x0a'] ++ joinSep ['\x0a'] (y :: rest') =
        x ++ ('\x0a' :: joinSep ['\x0a'] (y :: rest')) by simp]
      rw [this]
      simp

theorem joinSep_append (sep : JStr) (l₁ l₂ : List JStr) (h₁ : l₁ ≠ []) (h₂ : l₂ ≠ []) :
    joinSep sep (l₁ ++ l₂) = joinSep sep l₁ ++ sep ++ joinSep sep l₂ := by
  induction l₁ with
  | nil => exact absurd rfl h₁
  | cons x rest ih =>
    cases rest with
    | nil =>
      cases l₂ with
      | nil => exact absurd rfl h₂
      | cons y r => simp [joinSep]
    | cons x' rest' =>
      have h3 := ih (by simp)
      simp only [List.cons_append, List.append_eq, joinSep] at h3 ⊢
      rw [h3]
      simp [List.append_assoc]

theorem signatureOfIdentities_head (l : List TabIdentity) (h : l ≠ []) :
    ∃ rest, signatureOfIdentities l = '\x7b' :: rest := by
  cases l with
  | nil => exact absurd rfl h
  | cons r rest =>
    cases rest with
    | nil =>
      obtain ⟨t, ht⟩ := jsonTabIdentity_head r
      exact ⟨t, by simp [signatureOfIdentities, joinSep, ht]⟩
    | cons r' rest' =>
      obtain ⟨t, ht⟩ := jsonTabIdentity_head r
      refine ⟨t ++ ['\x0a'] ++ joinSep ['\x0a'] ((r' :: rest').map jsonTabIdentity), ?_⟩
      simp [signatureOfIdentities, joinSep, ht]

theorem jsonTabIdentity_getLast (r : TabIdentity) :
    (jsonTabIdentity r).getLast? = some '\x7d' := by
  unfold jsonTabIdentity
  rw [List.getLast?_append_of_ne_nil _ (by simp)]
  rfl

theorem signatureOfIdentities_getLast (l : List TabIdentity) (h : l ≠ []) :
    (signatureOfIdentities l).getLast? = some '\x7d' := by
  induction l with
  | nil => exact absurd rfl h
  | cons r rest ih =>
    cases rest with
    | nil =>
      simp only [signatureOfIdentities, List.map_cons, List.map_nil, joinSep]
      exact jsonTabIdentity_getLast r
    | cons r' rest' =>
      simp only [signatureOfIdentities, List.map_cons, joinSep]
      have hne : joinSep ['\x0a'] (jsonTabIdentity r' :: rest'.map jsonTabIdentity) ≠ [] := by
        intro hnil
        have := signatureOfIdentities_head (r' :: rest') (by simp)
        simp only [signatureOfIdentities, List.map_cons] at this
        obtain ⟨t, ht⟩ := this
        rw [hnil] at ht
        exact List.noConfusion ht
      rw [List.getLast?_append_of_ne_nil _ (by simpa using hne)]
      have := ih (by simp)
      simp only [signatureOfIdentities, List.map_cons] at this
      exact this

theorem dropWhile_reverse_getLast (s : JStr) (c2 : Char)
    (hlast : s.getLast? = some c2) (h2 : isJsWhitespace c2 = false) :
    s.reverse.dropWhile isJsWhitespace = s.reverse := by
  cases hrev : s.reverse with
  | nil =>
    rfl
  | cons d t =>
    have hd : d = c2 := by
      have := List.head?_reverse s
      rw [hrev, hlast] at this
      simpa using this
    rw [List.dropWhile_cons, if_neg (by rw [hd, h2]; simp)]

theorem jsTrim_of_ends (s : JStr) (c1 c2 : Char) (rest : JStr)
    (hhead : s = c1 :: rest) (h1 : isJsWhitespace c1 = false)
    (hlast : s.getLast? = some c2) (h2 : isJsWhitespace c2 = false) :
    jsTrim s = s := by
  unfold jsTrim
  rw [hhead, List.dropWhile_cons, if_neg (by rw [h1]; simp), ← hhead,
    dropWhile_reverse_getLast s c2 hlast h2, List.reverse_reverse]

theorem jsTrim_newline_cons (s : JStr) (c1 c2 : Char) (rest : JStr)
    (hhead : s = c1 :: rest) (h1 : isJsWhitespace c1 = false)
    (hlast : s.getLast? = some c2) (h2 : isJsWhitespace c2 = false) :
    jsTrim ('\x0a' :: s) = s := by
  unfold jsTrim
  rw [List.dropWhile_cons, if_pos (by decide), hhead, List.dropWhile_cons,
    if_neg (by rw [h1]; simp), ← hhead,
    dropWhile_reverse_getLast s c2 hlast h2, List.reverse_reverse]

theorem jsReplaceFirst_self (p r : JStr) : jsReplaceFirst (p ++ r) p [] = r := by
  have hpre : p.isPrefixOf (p ++ r) = true :=
    List.isPrefixOf_iff_prefix.mpr (List.prefix_append p r)
  cases hp : p ++ r with
  | nil =>
    rcases List.append_eq_nil.mp hp with ⟨rfl, rfl⟩
    simp [jsReplaceFirst]
  | cons c rest =>
    rw [hp] at hpre
    simp only [jsReplaceFirst]
    rw [if_pos hpre, ← hp, List.drop_left]
    simp

theorem signatureOfIdentities_append (T E : List TabIdentity) (hT : T ≠ []) (hE : E ≠ []) :
    signatureOfIdentities (T ++ E) =
      signatureOfIdentities T ++ ('\x0a' :: signatureOfIdentities E) := by
  unfold signatureOfIdentities
  rw [List.map_append, joinSep_append ['\x0a'] _ _ (by simpa using hT) (by simpa using hE)]
  simp

theorem matcheSignatures_extension (T E : List TabIdentity) :
    matcheSignatures (signatureOfIdentities (T ++ E))
      (some (signatureOfIdentities T)) = true := by
  unfold matcheSignatures
  cases hT : T with
  | nil => simp [signatureOfIdentities, joinSep]
  | cons t T' =>
    cases hE : E with
    | nil =>
      simp only [List.append_nil]
      have : (signatureOfIdentities (t :: T')).isPrefixOf
          (signatureOfIdentities (t :: T')) = true :=
        List.isPrefixOf_iff_prefix.mpr (List.prefix_refl _)
      simp [this]
    | cons e E' =>
      have hp : (signatureOfIdentities (t :: T')).isPrefixOf
          (signatureOfIdentities ((t :: T') ++ (e :: E'))) = true := by
        rw [List.isPrefixOf_iff_prefix,
          signatureOfIdentities_append _ _ (by simp) (by simp)]
        exact List.prefix_append _ _
      dsimp only
      rw [hp, Bool.or_true]

theorem computeOffset_spec (T E : List TabIdentity) (hE : E ≠ []) :
    computeOffset (signatureOfIdentities (T ++ E))
      (some (signatureOfIdentities T)) = E.length := by
  have hEnf : ∀ x ∈ E.map jsonTabIdentity, '\x0a' ∉ x := by
    intro x hx
    simp only [List.mem_map] at hx
    obtain ⟨r, -, rfl⟩ := hx
    exact jsonTabIdentity_no_newline r
  have hEne : E.map jsonTabIdentity ≠ [] := by
    simpa using hE
  obtain ⟨hd, hhead⟩ := signatureOfIdentities_head E hE
  have hlast := signatureOfIdentities_getLast E hE
  have hsplit : splitOnNewline (signatureOfIdentities E) = E.map jsonTabIdentity :=
    splitOnNewline_joinSep (E.map jsonTabIdentity) hEne hEnf
  have hfilter : (E.map jsonTabIdentity).filter (fun part => !part.isEmpty) =
      E.map jsonTabIdentity := by
    rw [List.filter_eq_self]
    intro a ha
    simp only [List.mem_map] at ha
    obtain ⟨r, -, rfl⟩ := ha
    obtain ⟨t, ht⟩ := jsonTabIdentity_head r
    simp [ht]
  cases T with
  | nil =>
    unfold computeOffset jsStringOfOpt
    have h0 : signatureOfIdentities ([] ++ E) = ([] : JStr) ++ signatureOfIdentities E := by
      simp
    rw [show signatureOfIdentities (([] : List TabIdentity)) = ([] : JStr) from rfl,
      h0, jsReplaceFirst_self,
      jsTrim_of_ends _ _ _ _ hhead (by decide) hlast (by decide),
      hsplit, hfilter, List.length_map]
  | cons t T' =>
    unfold computeOffset jsStringOfOpt
    rw [signatureOfIdentities_append (t :: T') E (by simp) hE,
      jsReplaceFirst_self,
      jsTrim_newline_cons _ _ _ _ hhead (by decide) hlast (by decide),
      hsplit, hfilter, List.length_map]

/-- Claim C2: when the stored snapshot's signature covers the tab sequence
T and the live tabs are T followed by a non-empty extension E,
getEffectiveWindowCache succeeds and the returned effective cache's offset
equals the number of records in E. -/
theorem getEffectiveWindowCache_offset_of_extension
    (tabsT tabsE : List ApiTab) (ow : ApiTab)
    (contents : List TabIdentity) (style tbs : JStr) (pc ind ind2 : Nat)
    (td cd : Option Bool) (mt uct w hct : Bool) (co : Option Container)
    (ex : List Nat) (owner0 : Option ApiTab)
    (hE : tabsE ≠ [])
    (how : (tabsT ++ tabsE).getLast? = some ow) :
    ∃ ec,
      (getEffectiveWindowCache { ignorePinnedTabs := false }
        { mTracking := mt, useCachedTree := uct, mLastWindowCacheOwner := owner0,
          liveTabs := tabsT ++ tabsE, existingTabIds := ex,
          store := [(ow.id,
            { sidebar := some
                { version := kSIDEBAR_CONTENTS_VERSION,
                  tabbar := { contents := contents, style := style, pinnedTabsCount := pc },
                  indent := ind,
                  signature := some (signatureOfIdentities
                    (tabsT.map (fun t => t.identity))),
                  hasTabsField := false },
              tabsDirty := td, collapsedDirty := cd })],
          waiting := w, hasCreatingTab := hct, container := co,
          tabBarStyle := tbs, indentCacheInfo := ind2 }).result = some ec ∧
      ec.offset = tabsE.length := by
  have hmapE : tabsE.map (fun t => t.identity) ≠ [] := by simpa using hE
  simp only [getEffectiveWindowCache, cancelReservedUpdateCachedTabbar]
  rw [how]
  simp only [getWindowCache, lookupSlots, List.lookup_cons, beq_self_eq_true,
    Option.getD_some, getKeySlot, Option.map_some', asSnap, Option.some_bind]
  simp only [brokenCacheCheck, Bool.false_and, Bool.false_eq_true, if_false]
  simp only [applyIgnorePinned, applyVersionGate, if_pos rfl]
  have hmatch : matcheSignatures
      (getWindowSignature (tabsT ++ tabsE))
      (some (signatureOfIdentities (tabsT.map (fun t => t.identity)))) = true := by
    unfold getWindowSignature
    rw [List.map_append]
    exact matcheSignatures_extension _ _
  rw [hmatch]
  refine ⟨_, rfl, ?_⟩
  show computeOffset (getWindowSignature (tabsT ++ tabsE))
    (some (signatureOfIdentities (tabsT.map (fun t => t.identity)))) = tabsE.length
  unfold getWindowSignature
  rw [List.map_append, computeOffset_spec _ _ hmapE, List.length_map]

/-- Second concrete tab used by witnesses. -/
def sampleTab2 : ApiTab := ⟨2, ⟨true, false, false, [], []⟩⟩

/-- Witness for C2: one cached tab, one appended live tab, offset 1. -/
theorem getEffectiveWindowCache_offset_witness :
    ∃ ec,
      (getEffectiveWindowCache { ignorePinnedTabs := false }
        { mTracking := false, useCachedTree := false, mLastWindowCacheOwner := none,
          liveTabs := [sampleTab] ++ [sampleTab2], existingTabIds := [],
          store := [(sampleTab2.id,
            { sidebar := some
                { version := kSIDEBAR_CONTENTS_VERSION,
                  tabbar := { contents := [], style := [], pinnedTabsCount := 0 },
                  indent := 0,
                  signature := some (signatureOfIdentities
                    ([sampleTab].map (fun t => t.identity))),
                  hasTabsField := false },
              tabsDirty := none, collapsedDirty := none })],
          waiting := false, hasCreatingTab := false, container := none,
          tabBarStyle := [], indentCacheInfo := 0 }).result = some ec ∧
      ec.offset = [sampleTab2].length :=
  getEffectiveWindowCache_offset_of_extension [sampleTab] [sampleTab2] sampleTab2
    [] [] [] 0 0 0 none none false false false false none [] none
    (by decide) (by decide)
